import Mathlib

/-!
Shallow embedding of `src/accountancy/_payment.py` (payment-table parsing
core of AccountancyTools) together with proofs about the claims of its
specification.

Conventions of the embedding:
* Python `str` is modelled as `String` / `List Char`; machine integers are
  `Int` (Python ints are unbounded); line numbers are `Nat`.
* The logger is modelled as an explicit list of emitted diagnostics
  (`Diag`); debug-level messages are not modelled.
* Python code that can raise an uncaught exception (`list[-1]` / `list[0]`
  indexing on an empty list inside message formatting) is modelled with
  `Option`: `none` means the corresponding call raises.
* `re.match` anchors only at the start of the string (prefix match); the
  regular expression of `_TableRow.parse_line` is backtracking-free (the
  two alternatives of each group are distinguished by their first two
  characters, and every greedy repetition is followed by a character that
  the repetition cannot consume), so it is embedded as a deterministic
  left-to-right scanner.
-/

namespace Accountancy

/-- One physical input line with its 1-based line number
(`MonthlyReportLine` of `_monthly_report.py`, restricted to the fields the
payment parser uses). -/
structure MonthlyReportLine where
  text : String
  line_number : Nat
deriving DecidableEq

/-- `ReceiptItem` dataclass. -/
structure ReceiptItem where
  name : String
  price : Int
  line_number : Nat
deriving DecidableEq

/-- `Receipt` dataclass. -/
structure Receipt where
  year : Int
  month : Int
  day : Int
  hour : Int
  minute : Int
  store : String
  items : List ReceiptItem
  line_number : Nat
deriving DecidableEq

/-- `Receipt.last_line_number`: `line_number + len(items) - 1` (Python int
arithmetic, hence `Int`). -/
def Receipt.last_line_number (r : Receipt) : Int :=
  (r.line_number : Int) + r.items.length - 1

/-! ### Decimal rendering (Python f-string formatting of ints) -/

/-- Numeric value of a decimal digit character. -/
def digitVal (c : Char) : Nat := c.toNat - 48

/-- Value of a list of decimal digit characters (as `int()` on the matched
group). -/
def digitsToNat (cs : List Char) : Nat :=
  cs.foldl (fun a c => 10 * a + digitVal c) 0

/-- Decimal digits of `n`, most significant first, prepended to `acc`;
`fuel` bounds the recursion (any `fuel > n` gives the exact digits). -/
def natToCharsAux : Nat → Nat → List Char → List Char
  | 0, _, acc => acc
  | fuel + 1, n, acc =>
    if n < 10 then Char.ofNat (48 + n) :: acc
    else natToCharsAux fuel (n / 10) (Char.ofNat (48 + n % 10) :: acc)

/-- Decimal representation of a natural number (`str(n)` in Python). -/
def natToChars (n : Nat) : List Char := natToCharsAux (n + 1) n []

/-- Decimal representation of an integer (`f'{i}'` in Python). -/
def intToChars (i : Int) : List Char :=
  if i < 0 then '-' :: natToChars i.natAbs else natToChars i.toNat

/-- Python `f'{i:02}'`: zero-pad to width 2 (sign included in the width). -/
def pad02 (i : Int) : List Char :=
  let s := intToChars i
  if s.length < 2 then '0' :: s else s

/-- Characters of a continuation row produced by `Receipt.to_table_rows`:
`f'||||{item.name}|{item.price}|'`. -/
def itemRowChars (it : ReceiptItem) : List Char :=
  '|' :: '|' :: '|' :: '|' :: (it.name.toList ++ '|' :: (intToChars it.price ++ ['|']))

/-- Characters of the first (key-carrying) row produced by
`Receipt.to_table_rows`. -/
def keyRowChars (r : Receipt) (it : ReceiptItem) : List Char :=
  '|' :: (intToChars r.day ++ '|' :: (pad02 r.hour ++ ':' :: (pad02 r.minute ++
    '|' :: (r.store.toList ++ '|' :: (it.name.toList ++ '|' :: (intToChars it.price ++ ['|']))))))

/-- `Receipt.to_table_rows`: the first item yields the key-carrying row,
every further item yields a continuation row; no items, no rows. -/
def Receipt.to_table_rows (r : Receipt) : List String :=
  match r.items with
  | [] => []
  | it :: rest => String.mk (keyRowChars r it) :: rest.map (fun x => String.mk (itemRowChars x))

/-! ### Calendar validity (`datetime.datetime(...)` raising `ValueError`) -/

/-- Proleptic Gregorian leap year, as used by `datetime`. -/
def isLeapYear (y : Int) : Bool :=
  (y % 4 == 0 && y % 100 != 0) || y % 400 == 0

/-- Number of days of month `m` of year `y`. -/
def daysInMonth (y m : Int) : Int :=
  if m == 2 then (if isLeapYear y then 29 else 28)
  else if m == 4 || m == 6 || m == 9 || m == 11 then 30
  else 31

/-- `datetime.datetime(year, month, day, hour, minute)` succeeds exactly
under these bounds (`MINYEAR = 1`, `MAXYEAR = 9999`). -/
def validDT (y m d h mi : Int) : Bool :=
  decide (1 ≤ y) && decide (y ≤ 9999) &&
  decide (1 ≤ m) && decide (m ≤ 12) &&
  decide (1 ≤ d) && decide (d ≤ daysInMonth y m) &&
  decide (0 ≤ h) && decide (h ≤ 23) &&
  decide (0 ≤ mi) && decide (mi ≤ 59)

/-- `Receipt.datetime` evaluates without raising. -/
def Receipt.validDatetime (r : Receipt) : Bool :=
  validDT r.year r.month r.day r.hour r.minute

/-- Lexicographic order on the `(year, month, day, hour, minute)` timestamp
of two receipts: the comparison `a.datetime <= b.datetime` of Python
(`datetime` comparison is lexicographic on the components, and the
remaining components — second, microsecond — are always equal here). -/
def dtLEb (a b : Receipt) : Bool :=
  decide (a.year < b.year) || (decide (a.year = b.year) &&
    (decide (a.month < b.month) || (decide (a.month = b.month) &&
      (decide (a.day < b.day) || (decide (a.day = b.day) &&
        (decide (a.hour < b.hour) || (decide (a.hour = b.hour) &&
          decide (a.minute ≤ b.minute))))))))

/-- Timestamp tuple of a receipt (used to speak about ties of the sort). -/
def dtTuple (r : Receipt) : Int × Int × Int × Int × Int :=
  (r.year, r.month, r.day, r.hour, r.minute)

/-! ### Line Classifier (`_TableRow.parse_line`) -/

/-- `_TableKey` dataclass. -/
structure TableKey where
  day : Int
  hour : Int
  minute : Int
  store : String
  line_number : Nat
deriving DecidableEq

/-- `_TableRow` dataclass. -/
structure TableRow where
  key : Option TableKey
  item : Option ReceiptItem
  line_number : Nat
deriving DecidableEq

/-- `_TableRow.is_empty`. -/
def TableRow.is_empty (r : TableRow) : Bool :=
  r.key.isNone && r.item.isNone

/-- Key group of the row regex:
`\|(?P<day>[0-9]+)\|(?P<hour>[0-9]{2}):(?P<minute>[0-9]{2})\|(?P<store>[^\|]+)`
or the placeholder `\|{3}`.  Returns the captured key (or `none` for the
placeholder) and the unconsumed rest; `none` overall means no match. -/
def parseKeyChars (cs : List Char) : Option (Option (Int × Int × Int × String) × List Char) :=
  match cs with
  | '|' :: c :: rest =>
    if c = '|' then
      match rest with
      | '|' :: rest2 => some (none, rest2)
      | _ => none
    else if c.isDigit then
      let ds := (c :: rest).takeWhile Char.isDigit
      let r1 := (c :: rest).dropWhile Char.isDigit
      match r1 with
      | '|' :: h1 :: h2 :: ':' :: m1 :: m2 :: '|' :: r2 =>
        if h1.isDigit && h2.isDigit && m1.isDigit && m2.isDigit then
          let store := r2.takeWhile (fun x => x != '|')
          let r3 := r2.dropWhile (fun x => x != '|')
          if store.isEmpty then none
          else some (some ((digitsToNat ds : Int),
                           (10 * digitVal h1 + digitVal h2 : Nat),
                           (10 * digitVal m1 + digitVal m2 : Nat),
                           String.mk store), r3)
        else none
      | _ => none
    else none
  | _ => none

/-- Price tail of the item group: `-?` already split off by the caller;
here `[0-9]+\|`. -/
def parsePriceDigits (cs : List Char) (neg : Bool) : Option (Int × List Char) :=
  let ds := cs.takeWhile Char.isDigit
  let r := cs.dropWhile Char.isDigit
  if ds.isEmpty then none
  else
    match r with
    | '|' :: r2 => some ((if neg then -(digitsToNat ds : Int) else (digitsToNat ds : Int)), r2)
    | _ => none

/-- The `-?[0-9]+\|` part of the item group, after its leading `\|`. -/
def parsePriceTail (r2 : List Char) : Option (Int × List Char) :=
  match r2 with
  | c2 :: r3 => if c2 = '-' then parsePriceDigits r3 true else parsePriceDigits (c2 :: r3) false
  | [] => none

/-- Item group of the row regex:
`\|(?P<item>[^\|]+)\|(?P<price>-?[0-9]+)\|` or the placeholder `\|{3}`. -/
def parseItemChars (cs : List Char) : Option (Option (String × Int) × List Char) :=
  match cs with
  | '|' :: c :: rest =>
    if c = '|' then
      match rest with
      | '|' :: rest2 => some (none, rest2)
      | _ => none
    else
      let name := (c :: rest).takeWhile (fun x => x != '|')
      let r1 := (c :: rest).dropWhile (fun x => x != '|')
      match r1 with
      | '|' :: r2 => (parsePriceTail r2).map (fun pr => (some (String.mk name, pr.1), pr.2))
      | _ => none
  | _ => none

/-- The whole row regex of `_TableRow.parse_line`, as a prefix match
(`re.match`): key group then item group; the unconsumed rest is returned
and ignored by the caller. -/
def parseLineChars (cs : List Char) :
    Option (Option (Int × Int × Int × String) × Option (String × Int) × List Char) :=
  match parseKeyChars cs with
  | none => none
  | some (k, r1) =>
    match parseItemChars r1 with
    | none => none
    | some (it, r2) => some (k, it, r2)

/-- `_TableRow.parse_line`: classify one line; `none` models the
`row_match is None` branch (the caller emits the diagnostic). -/
def TableRow.parse_line (line : MonthlyReportLine) : Option TableRow :=
  match parseLineChars line.text.toList with
  | none => none
  | some (k, it, _) =>
    some { key := k.map (fun q => { day := q.1, hour := q.2.1, minute := q.2.2.1,
                                    store := q.2.2.2, line_number := line.line_number }),
           item := it.map (fun q => { name := q.1, price := q.2, line_number := line.line_number }),
           line_number := line.line_number }

/-! ### Diagnostics (logger messages of warning/error severity) -/

/-- The diagnostics the payment core can emit (debug messages omitted). -/
inductive Diag where
  | parseFailed (text : String) (line : Nat)
  | unexpectedRow (text : String)
  | consecutiveEmptyRow (line : Nat)
  | invalidDatetime (line : Nat)
  | wrongOrder (line : Nat)
  | needEmptyRowBefore (line : Nat)
  | needNotEmptyRowBefore (line : Nat)
  | needEmptyRowAfter (line : Int)
deriving DecidableEq

/-! ### Section filter and table scanner -/

/-- `_filter_payment_section`: drop lines until the `## 出費` heading
(prefix match), then yield lines until one starting with `#`, which ends
the generator for good. -/
def filterSectionAux : List MonthlyReportLine → Bool → List MonthlyReportLine
  | [], _ => []
  | l :: rest, false =>
    if ("## 出費".toList).isPrefixOf l.text.toList then filterSectionAux rest true
    else filterSectionAux rest false
  | l :: rest, true =>
    if ("#".toList).isPrefixOf l.text.toList then []
    else l :: filterSectionAux rest true

def filterPaymentSection (lines : List MonthlyReportLine) : List MonthlyReportLine :=
  filterSectionAux lines false

/-- Exact table-header text expected by `_parse_payment_table`. -/
def headerText : String := "|日|時刻|店|商品|価格|"

/-- Exact alignment-row text expected by `_parse_payment_table`. -/
def alignmentText : String := "|--:|--:|:--|:--|--:|"

inductive ScanMode where
  | outer
  | header
  | body
deriving DecidableEq

structure ScanSt where
  mode : ScanMode
  tables : List (List TableRow)
  current : List TableRow
  diags : List Diag
deriving DecidableEq

/-- One step of the `match state` loop of `_parse_payment_table`. -/
def scanStep (st : ScanSt) (line : MonthlyReportLine) : ScanSt :=
  match st.mode with
  | .body =>
    if line.text.toList.isEmpty then
      { st with mode := .outer, tables := st.tables ++ [st.current], current := [] }
    else
      match TableRow.parse_line line with
      | some row => { st with current := st.current ++ [row] }
      | none =>
        { st with mode := .outer, tables := st.tables ++ [st.current], current := [],
                  diags := st.diags ++ [Diag.parseFailed line.text line.line_number] }
  | .header =>
    if line.text = alignmentText then { st with mode := .body }
    else { st with diags := st.diags ++ [Diag.unexpectedRow line.text] }
  | .outer =>
    if line.text = headerText then { st with mode := .header } else st

/-- `_parse_payment_table`: scan the payment section and slice it into
tables; a non-empty table still open at the end of input is flushed. -/
def parsePaymentTable (lines : List MonthlyReportLine) : List (List TableRow) × List Diag :=
  let st := (filterPaymentSection lines).foldl scanStep
    { mode := .outer, tables := [], current := [], diags := [] }
  (if st.current.isEmpty then st.tables else st.tables ++ [st.current], st.diags)

/-! ### Receipt Assembler (`_PaymentTableParser`) -/

/-- Mutable state of one `_PaymentTableParser` instance. -/
structure AsmSt where
  receipts : List Receipt
  isLastEmpty : Bool
  isBeforeKeyEmpty : Bool
  tableKey : Option TableKey
  tableItems : List ReceiptItem
  diags : List Diag
deriving DecidableEq

def initAsm : AsmSt :=
  { receipts := [], isLastEmpty := false, isBeforeKeyEmpty := false,
    tableKey := none, tableItems := [], diags := [] }

/-- Emit `d` when `cond` holds.  The source formats the message with
`_first_position_message(receipt)` = `receipt.to_table_rows()[0] ...`,
which raises `IndexError` when the receipt has no items; `none` models
that raise. -/
def warnOpt (r : Receipt) (d : Diag) (cond : Bool) : Option (List Diag) :=
  if cond then (if r.items.isEmpty then none else some [d]) else some []

/-- The candidate receipt `_push_receipt` builds from the pending key and
items. -/
def mkReceipt (y m : Int) (k : TableKey) (items : List ReceiptItem) : Receipt :=
  { year := y, month := m, day := k.day, hour := k.hour, minute := k.minute,
    store := k.store, items := items, line_number := k.line_number }

/-- `_PaymentTableParser._push_receipt`. -/
def pushReceipt (y m : Int) (st : AsmSt) : Option AsmSt :=
  match st.tableKey with
  | none => some st
  | some key =>
    let receipt : Receipt := mkReceipt y m key st.tableItems
    let st1 := { st with tableKey := none, tableItems := [] }
    if receipt.validDatetime = false then
      -- `logger.error(f'invalid datetime: {_first_position_message(receipt)}')`
      match warnOpt receipt (Diag.invalidDatetime receipt.line_number) true with
      | none => none
      | some w => some { st1 with diags := st1.diags ++ w }
    else
      match warnOpt receipt (Diag.wrongOrder receipt.line_number)
          (match st1.receipts.getLast? with
           | some prev => !(dtLEb prev receipt)
           | none => false) with
      | none => none
      | some w1 =>
        match warnOpt receipt
            (match st1.receipts.getLast? with
             | some prev => if prev.day < receipt.day
                            then Diag.needEmptyRowBefore receipt.line_number
                            else Diag.needNotEmptyRowBefore receipt.line_number
             | none => Diag.needEmptyRowBefore receipt.line_number)
            (match st1.receipts.getLast? with
             | some prev => if prev.day < receipt.day
                            then !st1.isBeforeKeyEmpty
                            else st1.isBeforeKeyEmpty
             | none => !st1.isBeforeKeyEmpty) with
        | none => none
        | some w2 =>
          some { st1 with receipts := st1.receipts ++ [receipt],
                          diags := st1.diags ++ w1 ++ w2 }

/-- Item half of `_PaymentTableParser.push` for a non-empty row: append
the item to the pending items if present, and record that the last row
was not empty. -/
def addItem (row : TableRow) (s : AsmSt) : AsmSt :=
  match row.item with
  | some it => { s with tableItems := s.tableItems ++ [it], isLastEmpty := false }
  | none => { s with isLastEmpty := false }

/-- `_PaymentTableParser.push`. -/
def push (y m : Int) (st : AsmSt) (row : TableRow) : Option AsmSt :=
  if row.is_empty then
    (pushReceipt y m (if st.isLastEmpty
        then { st with diags := st.diags ++ [Diag.consecutiveEmptyRow row.line_number] }
        else st)).map (fun s => { s with isLastEmpty := true })
  else
    match row.key with
    | some k => (pushReceipt y m st).map (fun s =>
        addItem row { s with isBeforeKeyEmpty := s.isLastEmpty, tableKey := some k })
    | none => some (addItem row st)

/-- `_PaymentTableParser.result`.  The trailing-empty-row warning formats
`_last_position_message(self._receipts[-1])`: `receipts[-1]` raises
`IndexError` on an empty receipt list, and `to_table_rows()[-1]` raises it
when the last receipt has no items; both are modelled by `none`. -/
def asmResult (y m : Int) (st : AsmSt) : Option (List Receipt × List Diag) :=
  match pushReceipt y m st with
  | none => none
  | some st1 =>
    if st1.isLastEmpty then some (st1.receipts, st1.diags)
    else
      match st1.receipts.getLast? with
      | none => none
      | some r =>
        if r.items.isEmpty then none
        else some (st1.receipts, st1.diags ++ [Diag.needEmptyRowAfter r.last_line_number])

/-- Run one fresh `_PaymentTableParser` over one table. -/
def runTable (y m : Int) (rows : List TableRow) : Option (List Receipt × List Diag) :=
  match rows.foldlM (push y m) initAsm with
  | none => none
  | some st => asmResult y m st

/-! ### Top level (`parse_payment`) -/

/-- Stable sort by timestamp: Python `list.sort(key=...)` is a stable sort
whose comparison is `dtLEb`; any stable sort computes the same list, here
insertion sort. -/
def dtLE (a b : Receipt) : Prop := dtLEb a b = true

instance : DecidableRel dtLE :=
  fun a b => inferInstanceAs (Decidable (dtLEb a b = true))

def sortReceipts (l : List Receipt) : List Receipt :=
  List.insertionSort dtLE l

/-- `parse_payment` before the final `receipts.sort(...)`: scan into
tables, run one assembler per table, concatenate receipts and diagnostics
in order.  `none` models an uncaught `IndexError`. -/
def parsePaymentRaw (year month : Int) (lines : List MonthlyReportLine) :
    Option (List Receipt × List Diag) :=
  let scan := parsePaymentTable lines
  match scan.1.mapM (fun t => runTable year month t) with
  | none => none
  | some outs =>
    some ((outs.map Prod.fst).flatten, scan.2 ++ (outs.map Prod.snd).flatten)

/-- `parse_payment`. -/
def parse_payment (year month : Int) (lines : List MonthlyReportLine) :
    Option (List Receipt × List Diag) :=
  (parsePaymentRaw year month lines).map (fun p => (sortReceipts p.1, p.2))

end Accountancy

namespace Accountancy

/-! ### Concrete evaluations settling the simple claims -/

/-- C1: the parsing core is claimed never to raise on any input.  It does:
on an expenses section whose table body is closed immediately (no rows),
`result()` reaches the `need an empty row after` warning with an empty
receipt list and `self._receipts[-1]` raises `IndexError`; the embedding
returns `none` there. -/
theorem parse_payment_raises_on_empty_table :
    parse_payment 2020 1
      [⟨"## 出費", 1⟩, ⟨headerText, 2⟩, ⟨alignmentText, 3⟩, ⟨"", 4⟩] = none := by
  decide

/-- C3 (counterexample): the claim says the grammar is matched against the
whole line, so a valid row prefix followed by trailing text must be
unparseable.  The source uses `re.match`, a prefix match: the line
`|15|09:30|S|W|500|x` is classified as a full key+item row, the trailing
`x` is ignored. -/
theorem parse_line_accepts_trailing_cex :
    TableRow.parse_line ⟨"|15|09:30|S|W|500|x", 7⟩ =
      some ⟨some ⟨15, 9, 30, "S", 7⟩, some ⟨"W", 500, 7⟩, 7⟩ := by
  decide

/-- C6: a key-only row (no items) whose day is 31 in a 30-day month.  The
claim says an error diagnostic is emitted and the candidate is dropped;
the code instead raises `IndexError` while formatting the error message
(`_first_position_message` indexes `to_table_rows()[0]`, an empty list for
an item-less receipt). -/
theorem parse_payment_crash_invalid_keyonly :
    parse_payment 2020 4
      [⟨"## 出費", 1⟩, ⟨headerText, 2⟩, ⟨alignmentText, 3⟩,
       ⟨"||||||", 4⟩, ⟨"|31|09:30|Store|||", 5⟩, ⟨"||||||", 6⟩] = none := by
  decide

/-- C10: a row carrying a real key group and the placeholder item group,
followed by an empty row, yields a receipt whose item list is empty, and
for that receipt `last_line_number = line_number - 1` (here `5 - 1`). -/
theorem parse_payment_empty_items_receipt :
    parse_payment 2020 1
      [⟨"## 出費", 1⟩, ⟨headerText, 2⟩, ⟨alignmentText, 3⟩,
       ⟨"||||||", 4⟩, ⟨"|15|09:30|Store|||", 5⟩, ⟨"||||||", 6⟩] =
      some ([⟨2020, 1, 15, 9, 30, "Store", [], 5⟩], []) ∧
    Receipt.last_line_number ⟨2020, 1, 15, 9, 30, "Store", [], 5⟩ = 5 - 1 := by
  constructor
  · decide
  · decide

/-- C5 (counterexample): after a valid header row, a line that is not the
exact alignment text emits the `unexpected row` error but the scanner
stays in the `header` state (it does not return to `outer`): a later exact
alignment line still opens a table for that header, and the following row
is captured into it. -/
theorem scanner_header_state_persists_cex :
    parsePaymentTable
      [⟨"## 出費", 1⟩, ⟨headerText, 2⟩, ⟨"garbage", 3⟩, ⟨alignmentText, 4⟩,
       ⟨"|15|09:30|S|W|500|", 5⟩, ⟨"||||||", 6⟩] =
      ([[⟨some ⟨15, 9, 30, "S", 5⟩, some ⟨"W", 500, 5⟩, 5⟩, ⟨none, none, 6⟩]],
       [Diag.unexpectedRow "garbage"]) := by
  decide

/-- C2 (counterexample): an item-only row placed before the key row of its
segment.  The claim says the receipt's item list is exactly the item cells
from its key row on; the code never clears `_table_items` while no key is
pending, so the earlier item `a` (line 4) leaks into the receipt whose key
row is line 5: the result's items are `[a, b]`, not `[b]`. -/
theorem runTable_items_leak_cex :
    runTable 2020 1
      [⟨none, some ⟨"a", 1, 4⟩, 4⟩,
       ⟨some ⟨15, 9, 30, "S", 5⟩, some ⟨"b", 2, 5⟩, 5⟩,
       ⟨none, none, 6⟩] =
      some ([⟨2020, 1, 15, 9, 30, "S", [⟨"a", 1, 4⟩, ⟨"b", 2, 5⟩], 5⟩],
            [Diag.needEmptyRowBefore 5]) := by
  decide

/-- C4 (counterexample): the candidate's day (10) differs from the
previous receipt's day (20) and no blank row precedes its key row, so the
claim requires a `need an empty row before` warning.  The code compares
with `<`, not `≠`: since `20 < 10` is false it takes the `else` branch and
emits nothing (only the independent `wrong order` warning appears). -/
theorem separator_warning_day_decrease_cex :
    runTable 2020 1
      [⟨none, none, 1⟩,
       ⟨some ⟨20, 9, 30, "S", 2⟩, some ⟨"a", 1, 2⟩, 2⟩,
       ⟨some ⟨10, 9, 30, "T", 3⟩, some ⟨"b", 2, 3⟩, 3⟩,
       ⟨none, none, 4⟩] =
      some ([⟨2020, 1, 20, 9, 30, "S", [⟨"a", 1, 2⟩], 2⟩,
             ⟨2020, 1, 10, 9, 30, "T", [⟨"b", 2, 3⟩], 3⟩],
            [Diag.wrongOrder 3]) := by
  decide

/-- C8 (counterexample): a receipt whose hour is 100 (store and item names
non-empty and `|`-free, items non-empty) renders its hour as three digits,
so re-feeding the first row of `to_table_rows` through the Line Classifier
fails instead of reproducing the key fields. -/
theorem to_table_rows_hour100_cex :
    Receipt.to_table_rows ⟨2020, 1, 15, 100, 5, "S", [⟨"W", 500, 7⟩], 7⟩ =
      ["|15|100:05|S|W|500|"] ∧
    TableRow.parse_line ⟨"|15|100:05|S|W|500|", 7⟩ = none := by
  constructor
  · decide
  · decide

end Accountancy

namespace Accountancy

/-! ### C5 (amended): behavior of the scanner in the `header` state -/

/-- C5 (amended): after a valid header row, a line that is not the exact
alignment text emits an `unexpected row` error and does not open a table,
but the scanner remains in the `header` state (it does not return to
`outer`); consequently a later exact alignment line still opens a table
for that header. -/
theorem scanStep_header_unexpected (st : ScanSt) (line : MonthlyReportLine)
    (hmode : st.mode = ScanMode.header) (hne : line.text ≠ alignmentText) :
    scanStep st line = { st with diags := st.diags ++ [Diag.unexpectedRow line.text] } := by
  unfold scanStep
  rw [hmode]
  simp [hne]

/-- Witness for `scanStep_header_unexpected` at a concrete state and line. -/
theorem scanStep_header_unexpected_witness :
    scanStep ⟨ScanMode.header, [], [], []⟩ ⟨"x", 3⟩ =
      ⟨ScanMode.header, [], [], [Diag.unexpectedRow "x"]⟩ :=
  scanStep_header_unexpected ⟨ScanMode.header, [], [], []⟩ ⟨"x", 3⟩ rfl (by decide)

/-! ### C7: the final sort is by timestamp and stable -/

theorem dtLEb_total (a b : Receipt) : dtLEb a b = true ∨ dtLEb b a = true := by
  simp only [dtLEb, Bool.or_eq_true, Bool.and_eq_true, decide_eq_true_eq]
  omega

theorem dtLEb_trans {a b c : Receipt} (h1 : dtLEb a b = true) (h2 : dtLEb b c = true) :
    dtLEb a c = true := by
  simp only [dtLEb, Bool.or_eq_true, Bool.and_eq_true, decide_eq_true_eq] at h1 h2 ⊢
  omega

/-- If `a ≤ b` fails then the two timestamps are distinct. -/
theorem dtTuple_ne_of_not_le {a b : Receipt} (h : ¬ dtLEb a b = true) :
    dtTuple a ≠ dtTuple b := by
  intro heq
  simp only [dtLEb, Bool.or_eq_true, Bool.and_eq_true, decide_eq_true_eq] at h
  simp only [dtTuple, Prod.mk.injEq] at heq
  omega

instance : IsTotal Receipt dtLE := ⟨fun a b => dtLEb_total a b⟩

instance : IsTrans Receipt dtLE := ⟨fun _ _ _ h1 h2 => dtLEb_trans h1 h2⟩

/-- Elements with a fixed timestamp are unmoved by one ordered insertion. -/
theorem filter_orderedInsert_dtTuple (t : Int × Int × Int × Int × Int) (a : Receipt)
    (l : List Receipt) :
    (List.orderedInsert dtLE a l).filter (fun r => decide (dtTuple r = t)) =
      if dtTuple a = t
      then a :: l.filter (fun r => decide (dtTuple r = t))
      else l.filter (fun r => decide (dtTuple r = t)) := by
  induction l with
  | nil =>
    simp only [List.orderedInsert, List.filter]
    by_cases hp : dtTuple a = t <;> simp [hp]
  | cons b l ih =>
    by_cases hab : dtLE a b
    · rw [List.orderedInsert_of_le dtLE l hab]
      by_cases hp : dtTuple a = t <;> simp [List.filter_cons, hp]
    · have hba : dtTuple a ≠ dtTuple b := dtTuple_ne_of_not_le hab
      simp only [List.orderedInsert, if_neg hab]
      by_cases hp : dtTuple a = t
      · have hbt : ¬ dtTuple b = t := fun hb => hba (hp.trans hb.symm)
        simp [List.filter_cons, hbt, ih, hp]
      · by_cases hbt : dtTuple b = t <;> simp [List.filter_cons, hbt, ih, hp]

/-- Stability of the sort: for every timestamp `t`, the sublist of
receipts with that timestamp is unchanged. -/
theorem filter_sortReceipts_dtTuple (t : Int × Int × Int × Int × Int) (l : List Receipt) :
    (sortReceipts l).filter (fun r => decide (dtTuple r = t)) =
      l.filter (fun r => decide (dtTuple r = t)) := by
  induction l with
  | nil => rfl
  | cons a l ih =>
    show (List.orderedInsert dtLE a (List.insertionSort dtLE l)).filter _ = _
    rw [filter_orderedInsert_dtTuple]
    by_cases hp : dtTuple a = t
    · rw [if_pos hp]
      rw [show List.insertionSort dtLE l = sortReceipts l from rfl] at *
      simp [List.filter_cons, hp, ih]
    · rw [if_neg hp]
      rw [show List.insertionSort dtLE l = sortReceipts l from rfl] at *
      simp [List.filter_cons, hp, ih]

/-- C7: the receipt list returned by `parse_payment` is non-decreasing by
timestamp (lexicographically on year, month, day, hour, minute), and for
every timestamp the receipts carrying it appear in the same relative
order as in the unsorted concatenation of all tables' results (stable
sort on the timestamp only). -/
theorem parse_payment_sorted_stable (year month : Int) (lines : List MonthlyReportLine)
    (out : List Receipt × List Diag)
    (h : parse_payment year month lines = some out) :
    List.Sorted dtLE out.1 ∧
    ∃ raw, parsePaymentRaw year month lines = some (raw, out.2) ∧
      ∀ t, out.1.filter (fun r => decide (dtTuple r = t)) =
           raw.filter (fun r => decide (dtTuple r = t)) := by
  unfold parse_payment at h
  cases hraw : parsePaymentRaw year month lines with
  | none => rw [hraw] at h; simp at h
  | some p =>
    rw [hraw] at h
    simp only [Option.map_some', Option.some.injEq] at h
    subst h
    refine ⟨List.sorted_insertionSort dtLE p.1, p.1, ?_, ?_⟩
    · rfl
    · intro t
      exact filter_sortReceipts_dtTuple t p.1

/-- Witness for `parse_payment_sorted_stable`: a file with two tables
whose receipts are out of order across tables. -/
theorem parse_payment_sorted_stable_witness :
    List.Sorted dtLE
      [⟨2020, 1, 5, 8, 0, "B", [⟨"y", 2, 11⟩], 11⟩,
       ⟨2020, 1, 20, 10, 0, "A", [⟨"x", 1, 5⟩], 5⟩] ∧
    ∃ raw, parsePaymentRaw 2020 1
        [⟨"## 出費", 1⟩, ⟨headerText, 2⟩, ⟨alignmentText, 3⟩,
         ⟨"||||||", 4⟩, ⟨"|20|10:00|A|x|1|", 5⟩, ⟨"||||||", 6⟩, ⟨"text", 7⟩,
         ⟨headerText, 8⟩, ⟨alignmentText, 9⟩,
         ⟨"||||||", 10⟩, ⟨"|5|08:00|B|y|2|", 11⟩, ⟨"||||||", 12⟩] =
        some (raw, [Diag.parseFailed "text" 7]) ∧
      ∀ t, List.filter (fun r => decide (dtTuple r = t))
          [⟨2020, 1, 5, 8, 0, "B", [⟨"y", 2, 11⟩], 11⟩,
           ⟨2020, 1, 20, 10, 0, "A", [⟨"x", 1, 5⟩], 5⟩] =
        List.filter (fun r => decide (dtTuple r = t)) raw :=
  parse_payment_sorted_stable 2020 1
    [⟨"## 出費", 1⟩, ⟨headerText, 2⟩, ⟨alignmentText, 3⟩,
     ⟨"||||||", 4⟩, ⟨"|20|10:00|A|x|1|", 5⟩, ⟨"||||||", 6⟩, ⟨"text", 7⟩,
     ⟨headerText, 8⟩, ⟨alignmentText, 9⟩,
     ⟨"||||||", 10⟩, ⟨"|5|08:00|B|y|2|", 11⟩, ⟨"||||||", 12⟩]
    ([⟨2020, 1, 5, 8, 0, "B", [⟨"y", 2, 11⟩], 11⟩,
      ⟨2020, 1, 20, 10, 0, "A", [⟨"x", 1, 5⟩], 5⟩], [Diag.parseFailed "text" 7])
    (by decide)

end Accountancy

namespace Accountancy

/-! ### C9: invariants of every returned receipt -/

/-- `_push_receipt` only appends receipts built from the parser's
year/month whose datetime validated. -/
theorem mem_receipts_pushReceipt {y m : Int} {st st' : AsmSt}
    (h : pushReceipt y m st = some st') {r : Receipt} (hr : r ∈ st'.receipts) :
    r ∈ st.receipts ∨ (r.year = y ∧ r.month = m ∧ r.validDatetime = true) := by
  unfold pushReceipt at h
  split at h
  · cases h; exact Or.inl hr
  · rename_i key hk
    dsimp only at h
    split at h
    · rename_i hv
      split at h
      · exact absurd h (by simp)
      · cases h; exact Or.inl hr
    · rename_i hv
      split at h
      · exact absurd h (by simp)
      · split at h
        · exact absurd h (by simp)
        · cases h
          simp only [List.mem_append, List.mem_singleton] at hr
          rcases hr with hin | rfl
          · exact Or.inl hin
          · refine Or.inr ⟨rfl, rfl, ?_⟩
            revert hv
            cases hval : Receipt.validDatetime _ <;> simp

/-- `push` only appends receipts through `_push_receipt`. -/
theorem mem_receipts_push {y m : Int} {st st' : AsmSt} {row : TableRow}
    (h : push y m st row = some st') {r : Receipt} (hr : r ∈ st'.receipts) :
    r ∈ st.receipts ∨ (r.year = y ∧ r.month = m ∧ r.validDatetime = true) := by
  unfold push at h
  split at h
  · rcases Option.map_eq_some'.mp h with ⟨s, hs, rfl⟩
    have h2 := mem_receipts_pushReceipt hs hr
    split at h2 <;> simpa using h2
  · split at h
    · rcases Option.map_eq_some'.mp h with ⟨s, hs, rfl⟩
      have hr' : r ∈ s.receipts := by
        revert hr; unfold addItem; split <;> simp
      exact mem_receipts_pushReceipt hs hr'
    · cases h
      have hr' : r ∈ st.receipts := by
        revert hr; unfold addItem; split <;> simp
      exact Or.inl hr'

theorem mem_receipts_foldlM {y m : Int} {rows : List TableRow} {st st' : AsmSt}
    (h : List.foldlM (push y m) st rows = some st') {r : Receipt} (hr : r ∈ st'.receipts) :
    r ∈ st.receipts ∨ (r.year = y ∧ r.month = m ∧ r.validDatetime = true) := by
  induction rows generalizing st with
  | nil => simp only [List.foldlM_nil] at h; cases h; exact Or.inl hr
  | cons a rows ih =>
    rw [List.foldlM_cons] at h
    rcases Option.bind_eq_some.mp h with ⟨s1, hs1, hrest⟩
    rcases ih hrest with h1 | h2
    · exact mem_receipts_push hs1 h1
    · exact Or.inr h2

theorem mem_receipts_asmResult {y m : Int} {st : AsmSt} {out : List Receipt × List Diag}
    (h : asmResult y m st = some out) {r : Receipt} (hr : r ∈ out.1) :
    r ∈ st.receipts ∨ (r.year = y ∧ r.month = m ∧ r.validDatetime = true) := by
  unfold asmResult at h
  split at h
  · exact absurd h (by simp)
  · rename_i st1 hp
    split at h
    · cases h; exact mem_receipts_pushReceipt hp hr
    · split at h
      · exact absurd h (by simp)
      · split at h
        · exact absurd h (by simp)
        · cases h; exact mem_receipts_pushReceipt hp hr

/-- Every receipt produced by one table run has the parser's year and
month and a valid datetime. -/
theorem mem_runTable {y m : Int} {rows : List TableRow} {out : List Receipt × List Diag}
    (h : runTable y m rows = some out) {r : Receipt} (hr : r ∈ out.1) :
    r.year = y ∧ r.month = m ∧ r.validDatetime = true := by
  unfold runTable at h
  split at h
  · exact absurd h (by simp)
  · rename_i st hfold
    rcases mem_receipts_asmResult h hr with h1 | h2
    · rcases mem_receipts_foldlM hfold h1 with h3 | h4
      · simp [initAsm] at h3
      · exact h4
    · exact h2

theorem mapM_runTable_mem {y m : Int} {tables : List (List TableRow)}
    {outs : List (List Receipt × List Diag)}
    (h : tables.mapM (fun t => runTable y m t) = some outs)
    {o : List Receipt × List Diag} (ho : o ∈ outs) :
    ∃ t, runTable y m t = some o := by
  induction tables generalizing outs with
  | nil =>
    simp only [List.mapM_nil] at h
    cases h; cases ho
  | cons a ts ih =>
    rw [List.mapM_cons] at h
    rcases Option.bind_eq_some.mp h with ⟨b, hb, h2⟩
    rcases Option.bind_eq_some.mp h2 with ⟨bs, hbs, h3⟩
    cases h3
    rcases List.mem_cons.mp ho with rfl | hmem
    · exact ⟨a, hb⟩
    · exact ih hbs hmem

/-- C9: every receipt in the list returned by `parse_payment year month
lines` has `year` equal to the `year` argument, `month` equal to the
`month` argument, and a timestamp on which `Receipt.datetime` evaluates
without raising. -/
theorem parse_payment_receipts_invariant (year month : Int)
    (lines : List MonthlyReportLine) (out : List Receipt × List Diag)
    (h : parse_payment year month lines = some out) :
    ∀ r ∈ out.1, r.year = year ∧ r.month = month ∧ r.validDatetime = true := by
  intro r hr
  unfold parse_payment at h
  cases hraw : parsePaymentRaw year month lines with
  | none => rw [hraw] at h; simp at h
  | some p =>
    rw [hraw] at h
    simp only [Option.map_some', Option.some.injEq] at h
    subst h
    have hmem : r ∈ p.1 := (List.perm_insertionSort dtLE p.1).mem_iff.mp hr
    unfold parsePaymentRaw at hraw
    dsimp only at hraw
    split at hraw
    · exact absurd hraw (by simp)
    · rename_i outs houts
      cases hraw
      simp only [List.mem_flatten, List.mem_map] at hmem
      rcases hmem with ⟨l, ⟨o, ho, rfl⟩, hrl⟩
      rcases mapM_runTable_mem houts ho with ⟨t, hto⟩
      exact mem_runTable hto hrl

/-- Witness for `parse_payment_receipts_invariant` at a one-receipt file. -/
theorem parse_payment_receipts_invariant_witness :
    (⟨2021, 3, 14, 12, 45, "Shop", [⟨"Pen", 120, 5⟩], 5⟩ : Receipt).year = 2021 ∧
    (⟨2021, 3, 14, 12, 45, "Shop", [⟨"Pen", 120, 5⟩], 5⟩ : Receipt).month = 3 ∧
    (⟨2021, 3, 14, 12, 45, "Shop", [⟨"Pen", 120, 5⟩], 5⟩ : Receipt).validDatetime = true :=
  parse_payment_receipts_invariant 2021 3
    [⟨"## 出費", 1⟩, ⟨headerText, 2⟩, ⟨alignmentText, 3⟩,
     ⟨"||||||", 4⟩, ⟨"|14|12:45|Shop|Pen|120|", 5⟩, ⟨"||||||", 6⟩]
    ([⟨2021, 3, 14, 12, 45, "Shop", [⟨"Pen", 120, 5⟩], 5⟩], [])
    (by decide)
    ⟨2021, 3, 14, 12, 45, "Shop", [⟨"Pen", 120, 5⟩], 5⟩
    (by decide)

end Accountancy

namespace Accountancy

/-! ### C4: characterization of the separator warnings -/

/-- `warnOpt` on a candidate with items always succeeds and emits the
diagnostic exactly when the condition holds. -/
theorem warnOpt_of_ne_nil {r : Receipt} {d : Diag} {cond : Bool} (h : r.items ≠ []) :
    warnOpt r d cond = some (if cond then [d] else []) := by
  unfold warnOpt
  cases hl : r.items with
  | nil => exact absurd hl h
  | cons a tl => cases cond <;> simp [hl]

theorem mkReceipt_day (y m : Int) (k : TableKey) (items : List ReceiptItem) :
    (mkReceipt y m k items).day = k.day := rfl

theorem mkReceipt_line (y m : Int) (k : TableKey) (items : List ReceiptItem) :
    (mkReceipt y m k items).line_number = k.line_number := rfl

/-- The chronological-order warning `_push_receipt` emits for a candidate
(`prev.datetime > cand.datetime`). -/
def orderWarns (prev : Option Receipt) (cand : Receipt) : List Diag :=
  match prev with
  | some p => if dtLEb p cand then [] else [Diag.wrongOrder cand.line_number]
  | none => []

/-- The separator warnings `_push_receipt` emits for a candidate built
from key `k`: the code branches on `prev.day < k.day` (strictly), and
treats the absence of a previous receipt like the `<` branch. -/
def sepWarns (prev : Option Receipt) (blank : Bool) (k : TableKey) : List Diag :=
  match prev with
  | some p =>
    if p.day < k.day then (if blank then [] else [Diag.needEmptyRowBefore k.line_number])
    else (if blank then [Diag.needNotEmptyRowBefore k.line_number] else [])
  | none => if blank then [] else [Diag.needEmptyRowBefore k.line_number]

/-- Full characterization of a successful flush: with a pending key, a
valid timestamp and a non-empty pending item list, `_push_receipt`
appends the candidate and emits exactly the order and separator
warnings. -/
theorem pushReceipt_flush (y m : Int) (st : AsmSt) (k : TableKey)
    (hk : st.tableKey = some k)
    (hv : validDT y m k.day k.hour k.minute = true)
    (hi : st.tableItems ≠ []) :
    pushReceipt y m st = some
      { st with tableKey := none, tableItems := [],
                receipts := st.receipts ++ [mkReceipt y m k st.tableItems],
                diags := st.diags ++
                  orderWarns st.receipts.getLast? (mkReceipt y m k st.tableItems) ++
                  sepWarns st.receipts.getLast? st.isBeforeKeyEmpty k } := by
  have hval : (mkReceipt y m k st.tableItems).validDatetime = true := hv
  have hi' : (mkReceipt y m k st.tableItems).items ≠ [] := hi
  unfold pushReceipt
  rw [hk]
  dsimp only
  rw [if_neg (by simp [hval])]
  rw [warnOpt_of_ne_nil hi', warnOpt_of_ne_nil hi']
  dsimp only
  simp only [mkReceipt_day, mkReceipt_line]
  cases hlast : st.receipts.getLast? with
  | none =>
    cases hb : st.isBeforeKeyEmpty <;>
      simp [orderWarns, sepWarns, mkReceipt_line, List.append_assoc]
  | some prev =>
    rcases Bool.eq_false_or_eq_true (dtLEb prev (mkReceipt y m k st.tableItems)) with ho | ho <;>
      by_cases hday : prev.day < k.day <;>
      cases hb : st.isBeforeKeyEmpty <;>
      simp [orderWarns, sepWarns, mkReceipt_day, mkReceipt_line, ho, hday, List.append_assoc]

/-- C4 (amended): when a candidate receipt (valid timestamp, non-empty
item list) is flushed, the `need an empty row before` warning is emitted
exactly when no blank row immediately preceded the candidate's key row
and the previous receipt's day is STRICTLY SMALLER than the candidate's
(or no previous receipt exists: the first receipt of a table behaves
like the increasing-day case); the `need not an empty row before`
warning is emitted exactly when a blank row preceded the key row and a
previous receipt exists whose day is greater than or equal to the
candidate's.  The code compares days with `<`, not with `≠` as the
claim states: a candidate whose day is smaller than the previous
receipt's day behaves like the equal-day case. -/
theorem pushReceipt_separator_warnings (y m : Int) (st : AsmSt) (k : TableKey)
    (hk : st.tableKey = some k)
    (hv : validDT y m k.day k.hour k.minute = true)
    (hi : st.tableItems ≠ []) :
    ∃ st', pushReceipt y m st = some st' ∧
      st'.diags = st.diags ++ orderWarns st.receipts.getLast? (mkReceipt y m k st.tableItems) ++
        sepWarns st.receipts.getLast? st.isBeforeKeyEmpty k ∧
      (sepWarns st.receipts.getLast? st.isBeforeKeyEmpty k =
          [Diag.needEmptyRowBefore k.line_number] ↔
        st.isBeforeKeyEmpty = false ∧
          ∀ prev, st.receipts.getLast? = some prev → prev.day < k.day) ∧
      (sepWarns st.receipts.getLast? st.isBeforeKeyEmpty k =
          [Diag.needNotEmptyRowBefore k.line_number] ↔
        st.isBeforeKeyEmpty = true ∧
          ∃ prev, st.receipts.getLast? = some prev ∧ ¬ prev.day < k.day) := by
  refine ⟨_, pushReceipt_flush y m st k hk hv hi, rfl, ?_, ?_⟩
  · cases hlast : st.receipts.getLast? with
    | none => cases hb : st.isBeforeKeyEmpty <;> simp [sepWarns]
    | some prev =>
      by_cases hday : prev.day < k.day <;>
        cases hb : st.isBeforeKeyEmpty <;>
        simp [sepWarns, hday] <;>
        try omega
  · cases hlast : st.receipts.getLast? with
    | none => cases hb : st.isBeforeKeyEmpty <;> simp [sepWarns]
    | some prev =>
      by_cases hday : prev.day < k.day <;>
        cases hb : st.isBeforeKeyEmpty <;>
        simp [sepWarns, hday] <;>
        try omega

/-- Witness for `pushReceipt_separator_warnings`: previous receipt of day
10, candidate of day 20, no blank row before the key row. -/
theorem pushReceipt_separator_warnings_witness :
    ∃ st', pushReceipt 2020 1
        ⟨[⟨2020, 1, 10, 8, 0, "A", [⟨"x", 1, 5⟩], 5⟩], false, false,
         some ⟨20, 9, 30, "B", 7⟩, [⟨"y", 2, 7⟩], []⟩ = some st' ∧
      st'.diags =
        ([] : List Diag) ++
          orderWarns (([⟨2020, 1, 10, 8, 0, "A", [⟨"x", 1, 5⟩], 5⟩] : List Receipt).getLast?)
            (mkReceipt 2020 1 ⟨20, 9, 30, "B", 7⟩ [⟨"y", 2, 7⟩]) ++
          sepWarns (([⟨2020, 1, 10, 8, 0, "A", [⟨"x", 1, 5⟩], 5⟩] : List Receipt).getLast?) false
            ⟨20, 9, 30, "B", 7⟩ ∧
      (sepWarns (([⟨2020, 1, 10, 8, 0, "A", [⟨"x", 1, 5⟩], 5⟩] : List Receipt).getLast?) false
          ⟨20, 9, 30, "B", 7⟩ = [Diag.needEmptyRowBefore 7] ↔
        false = false ∧
          ∀ prev, ([⟨2020, 1, 10, 8, 0, "A", [⟨"x", 1, 5⟩], 5⟩] : List Receipt).getLast? = some prev →
            prev.day < (⟨20, 9, 30, "B", 7⟩ : TableKey).day) ∧
      (sepWarns (([⟨2020, 1, 10, 8, 0, "A", [⟨"x", 1, 5⟩], 5⟩] : List Receipt).getLast?) false
          ⟨20, 9, 30, "B", 7⟩ = [Diag.needNotEmptyRowBefore 7] ↔
        false = true ∧
          ∃ prev, ([⟨2020, 1, 10, 8, 0, "A", [⟨"x", 1, 5⟩], 5⟩] : List Receipt).getLast? = some prev ∧
            ¬ prev.day < (⟨20, 9, 30, "B", 7⟩ : TableKey).day) :=
  pushReceipt_separator_warnings 2020 1
    ⟨[⟨2020, 1, 10, 8, 0, "A", [⟨"x", 1, 5⟩], 5⟩], false, false,
     some ⟨20, 9, 30, "B", 7⟩, [⟨"y", 2, 7⟩], []⟩
    ⟨20, 9, 30, "B", 7⟩ rfl (by decide) (by decide)

end Accountancy

namespace Accountancy

/-! ### C3: the classifier is a prefix match, not a whole-line match -/

/-- A span (`takeWhile`/`dropWhile`) that stops at an internal blocking
character is unaffected by appending further text. -/
theorem span_append_of_dropWhile_cons {α} {p : α → Bool} {xs ys t : List α} {y : α}
    (h : xs.dropWhile p = y :: ys) :
    (xs ++ t).takeWhile p = xs.takeWhile p ∧ (xs ++ t).dropWhile p = (y :: ys) ++ t := by
  have hsplit : xs.takeWhile p ++ (y :: ys) = xs := by
    rw [← h]; exact List.takeWhile_append_dropWhile p xs
  have htw : ∀ a ∈ xs.takeWhile p, p a = true := fun a ha => List.mem_takeWhile_imp ha
  have hy : p y = false := by
    have h2 := List.head?_dropWhile_not p xs
    rw [h] at h2
    simpa using h2
  constructor
  · conv in xs ++ t => rw [← hsplit]
    rw [List.append_assoc, List.takeWhile_append_of_pos htw]
    simp [List.takeWhile_cons, hy, hsplit]
  · conv in xs ++ t => rw [← hsplit]
    rw [List.append_assoc, List.dropWhile_append_of_pos htw]
    simp [List.dropWhile_cons, hy]

theorem parsePriceDigits_append {cs t r : List Char} {neg : Bool} {p : Int}
    (h : parsePriceDigits cs neg = some (p, r)) :
    parsePriceDigits (cs ++ t) neg = some (p, r ++ t) := by
  unfold parsePriceDigits at h ⊢
  dsimp only at h ⊢
  split at h
  · exact absurd h (by simp)
  · rename_i hds
    split at h
    · rename_i r2 hdrop
      cases h
      obtain ⟨htake, hdropapp⟩ := span_append_of_dropWhile_cons hdrop
      rw [htake, hdropapp]
      rw [if_neg hds]
      simp
    · exact absurd h (by simp)

theorem parsePriceTail_append {r2 t r : List Char} {p : Int}
    (h : parsePriceTail r2 = some (p, r)) :
    parsePriceTail (r2 ++ t) = some (p, r ++ t) := by
  cases r2 with
  | nil => simp [parsePriceTail] at h
  | cons c2 r3 =>
    unfold parsePriceTail at h ⊢
    dsimp only at h
    simp only [List.cons_append]
    by_cases hc2 : c2 = '-'
    · rw [if_pos hc2] at h ⊢
      exact parsePriceDigits_append h
    · rw [if_neg hc2] at h ⊢
      have hstep : parsePriceDigits (c2 :: (r3 ++ t)) false =
          parsePriceDigits ((c2 :: r3) ++ t) false := rfl
      rw [hstep, parsePriceDigits_append h]

theorem parseItemChars_append {cs t rest : List Char} {it : Option (String × Int)}
    (h : parseItemChars cs = some (it, rest)) :
    parseItemChars (cs ++ t) = some (it, rest ++ t) := by
  unfold parseItemChars at h ⊢
  split at h
  · rename_i c rest0
    simp only [List.cons_append]
    split at h
    · rename_i hc
      subst hc
      rw [if_pos rfl]
      split at h
      · rename_i rest2
        cases h
        simp
      · exact absurd h (by simp)
    · rename_i hc
      rw [if_neg hc]
      dsimp only at h ⊢
      rw [← List.cons_append]
      split at h
      · rename_i r2 hdrop
        obtain ⟨htake, hdropapp⟩ := span_append_of_dropWhile_cons hdrop
        rw [htake, hdropapp]
        rcases Option.map_eq_some'.mp h with ⟨⟨pv, r4⟩, hp, hmap⟩
        cases hmap
        simp only [List.cons_append]
        rw [parsePriceTail_append hp]
        rfl
      · exact absurd h (by simp)
  · exact absurd h (by simp)

theorem parseKeyChars_append {cs t rest : List Char} {k : Option (Int × Int × Int × String)}
    (h : parseKeyChars cs = some (k, rest)) (hne : rest ≠ []) :
    parseKeyChars (cs ++ t) = some (k, rest ++ t) := by
  unfold parseKeyChars at h ⊢
  split at h
  · rename_i c rest0
    simp only [List.cons_append]
    split at h
    · rename_i hc
      subst hc
      rw [if_pos rfl]
      split at h
      · rename_i rest2
        cases h
        simp
      · exact absurd h (by simp)
    · rename_i hc
      rw [if_neg hc]
      split at h
      · rename_i hdig
        rw [if_pos hdig]
        dsimp only at h ⊢
        rw [← List.cons_append]
        split at h
        · rename_i h1 h2 m1 m2 r2 hdrop
          obtain ⟨htake, hdropapp⟩ := span_append_of_dropWhile_cons hdrop
          rw [htake, hdropapp]
          simp only [List.cons_append]
          split at h
          · rename_i hdigs
            rw [if_pos hdigs]
            split at h
            · exact absurd h (by simp)
            · rename_i hstore
              cases h
              cases hr3 : r2.dropWhile (fun x => x != '|') with
              | nil => exact absurd hr3 hne
              | cons y ys =>
                obtain ⟨htake2, hdrop2⟩ := span_append_of_dropWhile_cons hr3
                rw [htake2, hdrop2, if_neg hstore]
          · exact absurd h (by simp)
        · exact absurd h (by simp)
      · exact absurd h (by simp)
  · exact absurd h (by simp)

/-- C3 (amended): the Line Classifier matches the grammar against a
PREFIX of the line (`re.match` anchors only at the start): whenever the
key group and the item group parse some prefix, appending arbitrary
trailing text leaves the classification (key and item) unchanged; in
particular a line with a valid row prefix followed by trailing text is
classified as that row rather than as unparseable. -/
theorem parseLineChars_prefix_stable (cs t : List Char)
    (k : Option (Int × Int × Int × String)) (it : Option (String × Int)) (rest : List Char)
    (h : parseLineChars cs = some (k, it, rest)) :
    parseLineChars (cs ++ t) = some (k, it, rest ++ t) ∧
    ∀ n, TableRow.parse_line ⟨String.mk (cs ++ t), n⟩ =
         TableRow.parse_line ⟨String.mk cs, n⟩ := by
  have hmain : parseLineChars (cs ++ t) = some (k, it, rest ++ t) := by
    unfold parseLineChars at h ⊢
    split at h
    · exact absurd h (by simp)
    · rename_i k0 r1 hkey
      split at h
      · exact absurd h (by simp)
      · rename_i it0 r2 hitem
        cases h
        have hr1 : r1 ≠ [] := by
          intro he
          subst he
          simp [parseItemChars] at hitem
        rw [parseKeyChars_append hkey hr1]
        dsimp only
        rw [parseItemChars_append hitem]
  refine ⟨hmain, fun n => ?_⟩
  unfold TableRow.parse_line
  rw [show (String.mk (cs ++ t)).toList = cs ++ t from rfl,
      show (String.mk cs).toList = cs from rfl, hmain, h]

/-- Witness for `parseLineChars_prefix_stable`: the valid row
`|15|09:30|S|W|500|` with trailing text `x`. -/
theorem parseLineChars_prefix_stable_witness :
    parseLineChars ("|15|09:30|S|W|500|".toList ++ "x".toList) =
      some (some (15, 9, 30, "S"), some ("W", 500), [] ++ "x".toList) ∧
    ∀ n, TableRow.parse_line ⟨String.mk ("|15|09:30|S|W|500|".toList ++ "x".toList), n⟩ =
         TableRow.parse_line ⟨String.mk "|15|09:30|S|W|500|".toList, n⟩ :=
  parseLineChars_prefix_stable "|15|09:30|S|W|500|".toList "x".toList
    (some (15, 9, 30, "S")) (some ("W", 500)) [] rfl

end Accountancy

namespace Accountancy

/-! ### C2: receipts and item attribution per table

`specStep`/`claimedReceipts` are the COMPARISON definitions written from
the claim's words (one receipt per key-carrying row; its items are the
item cells from its key row up to, but excluding, the next key row or
empty row), used to state the refinement; they are not part of the
embedding of the source. -/

/-- The claim's grouping, generalized over an open (pending) receipt:
returns the closed groups and the group still open at the end. -/
def specStep : Option (TableKey × List ReceiptItem) → List TableRow →
    List (TableKey × List ReceiptItem) × Option (TableKey × List ReceiptItem)
  | pending, [] => ([], pending)
  | pending, r :: rest =>
    if r.is_empty then
      let o := specStep none rest
      (pending.toList ++ o.1, o.2)
    else
      match r.key with
      | some kk =>
        let o := specStep (some (kk, r.item.toList)) rest
        (pending.toList ++ o.1, o.2)
      | none =>
        match pending with
        | some p2 => specStep (some (p2.1, p2.2 ++ r.item.toList)) rest
        | none => specStep none rest

/-- The claim's predicted receipts of a whole table: key row plus the item
cells of its segment, one entry per key-carrying row, in order. -/
def claimedReceipts (rows : List TableRow) : List (TableKey × List ReceiptItem) :=
  (specStep none rows).1 ++ ((specStep none rows).2).toList

/-- No item cell occurs while no receipt is open: every non-empty row
carrying an item either carries a key itself or is preceded, since the
last empty row, by a key row. -/
def goodRows : List TableRow → Bool → Bool
  | [], _ => true
  | r :: rest, hasKey =>
    if r.is_empty then goodRows rest false
    else
      (r.item.isNone || (r.key.isSome || hasKey)) && goodRows rest (r.key.isSome || hasKey)

/-- The pending (key, items) pair of an assembler state. -/
def pendingOf (st : AsmSt) : Option (TableKey × List ReceiptItem) :=
  match st.tableKey with
  | some kk => some (kk, st.tableItems)
  | none => none

theorem pendingOf_eq_some {st : AsmSt} {p : TableKey × List ReceiptItem}
    (h : pendingOf st = some p) :
    st.tableKey = some p.1 ∧ st.tableItems = p.2 := by
  unfold pendingOf at h
  split at h
  · cases h; exact ⟨by assumption, rfl⟩
  · exact absurd h (by simp)

theorem pendingOf_eq_none {st : AsmSt} (h : pendingOf st = none) :
    st.tableKey = none := by
  unfold pendingOf at h
  split at h
  · exact absurd h (by simp)
  · assumption

/-- `_push_receipt` with no pending key is the identity. -/
theorem pushReceipt_nokey {y m : Int} {st : AsmSt} (h : st.tableKey = none) :
    pushReceipt y m st = some st := by
  unfold pushReceipt
  rw [h]

/-- Closed groups plus the still-open group, as one list. -/
def specList (pnd : Option (TableKey × List ReceiptItem)) (rows : List TableRow) :
    List (TableKey × List ReceiptItem) :=
  (specStep pnd rows).1 ++ ((specStep pnd rows).2).toList

theorem specList_nil (pnd : Option (TableKey × List ReceiptItem)) :
    specList pnd [] = pnd.toList := by
  simp [specList, specStep]

theorem specList_cons_empty {r : TableRow} (rest : List TableRow)
    (pnd : Option (TableKey × List ReceiptItem)) (hemp : r.is_empty = true) :
    specList pnd (r :: rest) = pnd.toList ++ specList none rest := by
  simp [specList, specStep, hemp, List.append_assoc]

theorem specList_cons_key {r : TableRow} (rest : List TableRow)
    (pnd : Option (TableKey × List ReceiptItem)) {kk : TableKey}
    (hemp : r.is_empty = false) (hk : r.key = some kk) :
    specList pnd (r :: rest) = pnd.toList ++ specList (some (kk, r.item.toList)) rest := by
  simp [specList, specStep, hemp, hk, List.append_assoc]

theorem specList_cons_item {r : TableRow} (rest : List TableRow)
    {p2 : TableKey × List ReceiptItem}
    (hemp : r.is_empty = false) (hk : r.key = none) :
    specList (some p2) (r :: rest) =
      specList (some (p2.1, p2.2 ++ r.item.toList)) rest := by
  simp [specList, specStep, hemp, hk]

theorem specList_cons_nopending {r : TableRow} (rest : List TableRow)
    (hemp : r.is_empty = false) (hk : r.key = none) :
    specList none (r :: rest) = specList none rest := by
  simp [specList, specStep, hemp, hk]

/-- One receipt per key row: size of the claim's grouping. -/
theorem specList_length : ∀ (rows : List TableRow) (pnd : Option (TableKey × List ReceiptItem)),
    (specList pnd rows).length = pnd.toList.length + rows.countP (fun r => r.key.isSome) := by
  intro rows
  induction rows with
  | nil => intro pnd; simp [specList_nil]
  | cons r rest ih =>
    intro pnd
    by_cases hemp : r.is_empty = true
    · have hkey : r.key = none := by
        unfold TableRow.is_empty at hemp
        cases hk : r.key <;> simp [hk] at hemp ⊢
      rw [specList_cons_empty rest pnd hemp]
      simp [List.countP_cons, hkey, ih none]
    · rw [Bool.not_eq_true] at hemp
      cases hk : r.key with
      | some kk =>
        rw [specList_cons_key rest pnd hemp hk]
        simp [List.countP_cons, hk, ih (some (kk, r.item.toList))]
        omega
      | none =>
        cases hp : pnd with
        | some p2 =>
          rw [specList_cons_item rest hemp hk]
          simp [List.countP_cons, hk, ih (some (p2.1, p2.2 ++ r.item.toList))]
        | none =>
          rw [specList_cons_nopending rest hemp hk]
          simp [List.countP_cons, hk, ih none]

end Accountancy

namespace Accountancy


def emptyDiag (b : Bool) (n : Nat) : List Diag :=
  if b then [Diag.consecutiveEmptyRow n] else []

theorem push_empty_nokey {y m : Int} {st : AsmSt} {row : TableRow}
    (hemp : row.is_empty = true) (hk : st.tableKey = none) :
    push y m st row = some
      { st with isLastEmpty := true,
                diags := st.diags ++ emptyDiag st.isLastEmpty row.line_number } := by
  unfold push
  rw [if_pos hemp]
  cases hb : st.isLastEmpty with
  | false =>
    simp only [Bool.false_eq_true, if_false]
    rw [pushReceipt_nokey hk]
    simp [emptyDiag]
  | true =>
    rw [if_pos rfl]
    rw [pushReceipt_nokey (show AsmSt.tableKey
      { st with isLastEmpty := true,
                diags := st.diags ++ [Diag.consecutiveEmptyRow row.line_number] } = none from hk)]
    simp [emptyDiag]

theorem push_empty_key {y m : Int} {st : AsmSt} {row : TableRow} {kk : TableKey}
    (hemp : row.is_empty = true) (hk : st.tableKey = some kk)
    (hv : validDT y m kk.day kk.hour kk.minute = true)
    (hi : st.tableItems ≠ []) :
    push y m st row = some
      { st with isLastEmpty := true, tableKey := none, tableItems := [],
                receipts := st.receipts ++ [mkReceipt y m kk st.tableItems],
                diags := (st.diags ++ emptyDiag st.isLastEmpty row.line_number) ++
                  orderWarns st.receipts.getLast? (mkReceipt y m kk st.tableItems) ++
                  sepWarns st.receipts.getLast? st.isBeforeKeyEmpty kk } := by
  unfold push
  rw [if_pos hemp]
  cases hb : st.isLastEmpty with
  | false =>
    simp only [Bool.false_eq_true, if_false]
    rw [pushReceipt_flush y m st kk hk hv hi]
    simp [emptyDiag]
  | true =>
    rw [if_pos rfl]
    rw [pushReceipt_flush y m
      { st with isLastEmpty := true,
                diags := st.diags ++ [Diag.consecutiveEmptyRow row.line_number] } kk hk hv hi]
    simp [emptyDiag]

theorem push_key_nokey {y m : Int} {st : AsmSt} {row : TableRow} {kk : TableKey}
    (hemp : row.is_empty = false) (hk : row.key = some kk) (hn : st.tableKey = none) :
    push y m st row = some (addItem row
      { st with isBeforeKeyEmpty := st.isLastEmpty, tableKey := some kk }) := by
  unfold push
  rw [if_neg (by simp [hemp])]
  rw [hk]
  dsimp only
  rw [pushReceipt_nokey hn]
  rfl

theorem push_key_flush {y m : Int} {st : AsmSt} {row : TableRow} {kk kk0 : TableKey}
    (hemp : row.is_empty = false) (hk : row.key = some kk) (h0 : st.tableKey = some kk0)
    (hv : validDT y m kk0.day kk0.hour kk0.minute = true) (hi : st.tableItems ≠ []) :
    push y m st row = some (addItem row
      { st with isBeforeKeyEmpty := st.isLastEmpty, tableKey := some kk, tableItems := [],
                receipts := st.receipts ++ [mkReceipt y m kk0 st.tableItems],
                diags := st.diags ++
                  orderWarns st.receipts.getLast? (mkReceipt y m kk0 st.tableItems) ++
                  sepWarns st.receipts.getLast? st.isBeforeKeyEmpty kk0 }) := by
  unfold push
  rw [if_neg (by simp [hemp])]
  rw [hk]
  dsimp only
  rw [pushReceipt_flush y m st kk0 h0 hv hi]
  rfl

theorem push_item_only {y m : Int} {st : AsmSt} {row : TableRow}
    (hemp : row.is_empty = false) (hk : row.key = none) :
    push y m st row = some (addItem row st) := by
  unfold push
  rw [if_neg (by simp [hemp])]
  rw [hk]

theorem addItem_receipts (row : TableRow) (s : AsmSt) : (addItem row s).receipts = s.receipts := by
  unfold addItem; cases row.item <;> rfl

theorem addItem_tableKey (row : TableRow) (s : AsmSt) : (addItem row s).tableKey = s.tableKey := by
  unfold addItem; cases row.item <;> rfl

theorem addItem_diags (row : TableRow) (s : AsmSt) : (addItem row s).diags = s.diags := by
  unfold addItem; cases row.item <;> rfl

theorem addItem_isLastEmpty (row : TableRow) (s : AsmSt) : (addItem row s).isLastEmpty = false := by
  unfold addItem; cases row.item <;> rfl

theorem addItem_tableItems (row : TableRow) (s : AsmSt) :
    (addItem row s).tableItems = s.tableItems ++ row.item.toList := by
  unfold addItem; cases row.item <;> simp

theorem item_isSome_of_not_empty {r : TableRow} (hemp : r.is_empty = false)
    (hk : r.key = none) : r.item.isSome = true := by
  unfold TableRow.is_empty at hemp
  cases hi : r.item <;> simp [hk, hi] at hemp ⊢

theorem foldlM_cons_some {y m : Int} {st st1 : AsmSt} {r : TableRow} {rest : List TableRow}
    (h : push y m st r = some st1) :
    List.foldlM (push y m) st (r :: rest) = List.foldlM (push y m) st1 rest := by
  rw [List.foldlM_cons, h]
  rfl

theorem foldl_push_spec (y m : Int) :
    ∀ (rows : List TableRow) (st : AsmSt),
    (st.tableKey = none → st.tableItems = []) →
    goodRows rows st.tableKey.isSome = true →
    (∀ p ∈ specList (pendingOf st) rows,
        validDT y m p.1.day p.1.hour p.1.minute = true ∧ p.2 ≠ []) →
    ∃ st', List.foldlM (push y m) st rows = some st' ∧
      st'.receipts = st.receipts ++ ((specStep (pendingOf st) rows).1.map
        (fun p => mkReceipt y m p.1 p.2)) ∧
      pendingOf st' = (specStep (pendingOf st) rows).2 ∧
      st'.isLastEmpty = List.foldl (fun _ r2 => r2.is_empty) st.isLastEmpty rows ∧
      (st'.tableKey = none → st'.tableItems = []) ∧
      ∃ ds, st'.diags = st.diags ++ ds := by
  intro rows
  induction rows with
  | nil =>
    intro st hinv hgood hval
    exact ⟨st, by simp [List.foldlM_nil], by simp [specStep], by simp [specStep],
      rfl, hinv, ⟨[], by simp⟩⟩
  | cons r rest ih =>
    intro st hinv hgood hval
    by_cases hemp : r.is_empty = true
    · have hgood2 : goodRows rest false = true := by
        have he : goodRows (r :: rest) st.tableKey.isSome = goodRows rest false := by
          simp [goodRows, hemp]
        rw [he] at hgood
        exact hgood
      cases hpnd : pendingOf st with
      | none =>
        have hn := pendingOf_eq_none hpnd
        rw [foldlM_cons_some (push_empty_nokey hemp hn)]
        obtain ⟨st', h1, h2, h3, h4, h5, ds, h6⟩ := ih
          { st with
              isLastEmpty := true,
              diags := st.diags ++ emptyDiag st.isLastEmpty r.line_number }
          (fun _ => hinv hn)
          (by simpa [hn] using hgood2)
          (by intro p hp
              apply hval
              rw [specList_cons_empty rest (pendingOf st) hemp, hpnd]
              simpa [pendingOf, hn] using hp)
        refine ⟨st', h1, ?_, ?_, ?_, h5,
          ⟨emptyDiag st.isLastEmpty r.line_number ++ ds, ?_⟩⟩
        · rw [h2]
          simp [specStep, hemp, hpnd, pendingOf, hn]
        · rw [h3]
          simp [specStep, hemp, hpnd, pendingOf, hn]
        · rw [h4]
          simp [hemp]
        · rw [h6]
          simp [List.append_assoc]
      | some p =>
        obtain ⟨hks, hits⟩ := pendingOf_eq_some hpnd
        have hpmem : p ∈ specList (pendingOf st) (r :: rest) := by
          rw [specList_cons_empty rest (pendingOf st) hemp, hpnd]
          exact List.mem_append_left _ (by simp)
        obtain ⟨hpv, hpi⟩ := hval p hpmem
        rw [foldlM_cons_some (push_empty_key hemp hks hpv (by rw [hits]; exact hpi))]
        obtain ⟨st', h1, h2, h3, h4, h5, ds, h6⟩ := ih
          { st with
              isLastEmpty := true, tableKey := none, tableItems := [],
              receipts := st.receipts ++ [mkReceipt y m p.1 st.tableItems],
              diags := (st.diags ++ emptyDiag st.isLastEmpty r.line_number) ++
                orderWarns st.receipts.getLast? (mkReceipt y m p.1 st.tableItems) ++
                sepWarns st.receipts.getLast? st.isBeforeKeyEmpty p.1 }
          (fun _ => rfl)
          (by simpa using hgood2)
          (by intro q hq
              apply hval
              rw [specList_cons_empty rest (pendingOf st) hemp, hpnd]
              exact List.mem_append_right _ (by simpa [pendingOf] using hq))
        refine ⟨st', h1, ?_, ?_, ?_, h5, ?_⟩
        · rw [h2]
          simp [specStep, hemp, hpnd, pendingOf, hits, List.append_assoc]
        · rw [h3]
          simp [specStep, hemp, hpnd, pendingOf]
        · rw [h4]
          simp [hemp]
        · refine ⟨emptyDiag st.isLastEmpty r.line_number ++
            orderWarns st.receipts.getLast? (mkReceipt y m p.1 st.tableItems) ++
            sepWarns st.receipts.getLast? st.isBeforeKeyEmpty p.1 ++ ds, ?_⟩
          rw [h6]
          simp [List.append_assoc]
    · rw [Bool.not_eq_true] at hemp
      cases hkr : r.key with
      | some kk =>
        have hgood2 : goodRows rest true = true := by
          have he : goodRows (r :: rest) st.tableKey.isSome =
              ((r.item.isNone || (r.key.isSome || st.tableKey.isSome)) &&
                goodRows rest (r.key.isSome || st.tableKey.isSome)) := by
            simp [goodRows, hemp]
          rw [he] at hgood
          simp [hkr] at hgood
          exact hgood
        cases hpnd : pendingOf st with
        | none =>
          have hn := pendingOf_eq_none hpnd
          rw [foldlM_cons_some (push_key_nokey hemp hkr hn)]
          have hpd : pendingOf (addItem r
              { st with isBeforeKeyEmpty := st.isLastEmpty, tableKey := some kk }) =
              some (kk, r.item.toList) := by
            unfold pendingOf
            rw [addItem_tableKey, addItem_tableItems]
            simp [hinv hn]
          obtain ⟨st', h1, h2, h3, h4, h5, ds, h6⟩ := ih
            (addItem r { st with isBeforeKeyEmpty := st.isLastEmpty, tableKey := some kk })
            (by rw [addItem_tableKey]; intro hcon; simp at hcon)
            (by rw [addItem_tableKey]; simpa using hgood2)
            (by intro q hq
                apply hval
                rw [specList_cons_key rest (pendingOf st) hemp hkr, hpnd]
                refine List.mem_append_right _ ?_
                rw [hpd] at hq
                simpa using hq)
          refine ⟨st', h1, ?_, ?_, ?_, h5, ?_⟩
          · rw [h2, hpd, addItem_receipts]
            simp [specStep, hemp, hkr, hpnd, List.append_assoc]
          · rw [h3, hpd]
            simp [specStep, hemp, hkr, hpnd]
          · rw [h4, addItem_isLastEmpty]
            simp [hemp]
          · refine ⟨ds, ?_⟩
            rw [h6, addItem_diags]
        | some p =>
          obtain ⟨hks, hits⟩ := pendingOf_eq_some hpnd
          have hpmem : p ∈ specList (pendingOf st) (r :: rest) := by
            rw [specList_cons_key rest (pendingOf st) hemp hkr, hpnd]
            exact List.mem_append_left _ (by simp)
          obtain ⟨hpv, hpi⟩ := hval p hpmem
          rw [foldlM_cons_some (push_key_flush hemp hkr hks hpv (by rw [hits]; exact hpi))]
          have hpd : pendingOf (addItem r
              { st with
                  isBeforeKeyEmpty := st.isLastEmpty, tableKey := some kk,
                  tableItems := [],
                  receipts := st.receipts ++ [mkReceipt y m p.1 st.tableItems],
                  diags := st.diags ++
                    orderWarns st.receipts.getLast? (mkReceipt y m p.1 st.tableItems) ++
                    sepWarns st.receipts.getLast? st.isBeforeKeyEmpty p.1 }) =
              some (kk, r.item.toList) := by
            unfold pendingOf
            rw [addItem_tableKey, addItem_tableItems]
            simp
          obtain ⟨st', h1, h2, h3, h4, h5, ds, h6⟩ := ih
            (addItem r
              { st with
                  isBeforeKeyEmpty := st.isLastEmpty, tableKey := some kk,
                  tableItems := [],
                  receipts := st.receipts ++ [mkReceipt y m p.1 st.tableItems],
                  diags := st.diags ++
                    orderWarns st.receipts.getLast? (mkReceipt y m p.1 st.tableItems) ++
                    sepWarns st.receipts.getLast? st.isBeforeKeyEmpty p.1 })
            (by rw [addItem_tableKey]; intro hcon; simp at hcon)
            (by rw [addItem_tableKey]; simpa using hgood2)
            (by intro q hq
                apply hval
                rw [specList_cons_key rest (pendingOf st) hemp hkr, hpnd]
                refine List.mem_append_right _ ?_
                rw [hpd] at hq
                simpa using hq)
          refine ⟨st', h1, ?_, ?_, ?_, h5, ?_⟩
          · rw [h2, hpd, addItem_receipts]
            simp [specStep, hemp, hkr, hpnd, pendingOf, hits, List.append_assoc]
          · rw [h3, hpd]
            simp [specStep, hemp, hkr, hpnd]
          · rw [h4, addItem_isLastEmpty]
            simp [hemp]
          · refine ⟨orderWarns st.receipts.getLast? (mkReceipt y m p.1 st.tableItems) ++
              sepWarns st.receipts.getLast? st.isBeforeKeyEmpty p.1 ++ ds, ?_⟩
            rw [h6, addItem_diags]
            simp [List.append_assoc]
      | none =>
        have hsome := item_isSome_of_not_empty hemp hkr
        have he : goodRows (r :: rest) st.tableKey.isSome =
            ((r.item.isNone || (r.key.isSome || st.tableKey.isSome)) &&
              goodRows rest (r.key.isSome || st.tableKey.isSome)) := by
          simp [goodRows, hemp]
        have hkey : st.tableKey.isSome = true := by
          rw [he] at hgood
          simp [hkr] at hgood
          rcases hgood with ⟨h7, _⟩
          rcases h7 with h7 | h7
          · rw [h7] at hsome
            cases hsome
          · exact h7
        obtain ⟨kk0, hks⟩ := Option.isSome_iff_exists.mp hkey
        have hpnd : pendingOf st = some (kk0, st.tableItems) := by
          unfold pendingOf
          rw [hks]
        have hgood2 : goodRows rest true = true := by
          rw [he] at hgood
          simp [hkr, hkey] at hgood
          exact hgood
        rw [foldlM_cons_some (push_item_only hemp hkr)]
        have hpd : pendingOf (addItem r st) =
            some (kk0, st.tableItems ++ r.item.toList) := by
          unfold pendingOf
          rw [addItem_tableKey, addItem_tableItems, hks]
        obtain ⟨st', h1, h2, h3, h4, h5, ds, h6⟩ := ih (addItem r st)
          (by rw [addItem_tableKey]; intro hcon; rw [hcon] at hks; cases hks)
          (by rw [addItem_tableKey, hks]; simpa using hgood2)
          (by intro q hq
              apply hval
              rw [show specList (pendingOf st) (r :: rest) =
                    specList (some (kk0, st.tableItems ++ r.item.toList)) rest from by
                rw [hpnd]
                exact specList_cons_item rest hemp hkr]
              rw [hpd] at hq
              exact hq)
        refine ⟨st', h1, ?_, ?_, ?_, h5, ?_⟩
        · rw [h2, hpd, addItem_receipts]
          simp [specStep, hemp, hkr, hpnd]
        · rw [h3, hpd]
          simp [specStep, hemp, hkr, hpnd]
        · rw [h4, addItem_isLastEmpty]
          simp [hemp]
        · refine ⟨ds, ?_⟩
          rw [h6, addItem_diags]

theorem specStep_fin_isSome :
    ∀ (rows : List TableRow) (pnd : Option (TableKey × List ReceiptItem)) (b : Bool),
    goodRows rows pnd.isSome = true →
    List.foldl (fun _ r2 => r2.is_empty) b rows = false →
    rows ≠ [] →
    ((specStep pnd rows).2).isSome = true := by
  intro rows
  induction rows with
  | nil =>
    intro pnd b _ _ hne
    exact absurd rfl hne
  | cons r rest ih =>
    intro pnd b hgood hlast _
    rw [List.foldl_cons] at hlast
    by_cases hemp : r.is_empty = true
    · have hgood2 : goodRows rest false = true := by
        simp [goodRows, hemp] at hgood
        exact hgood
      cases rest with
      | nil => simp [hemp] at hlast
      | cons r2 rest2 =>
        have hstep : (specStep pnd (r :: r2 :: rest2)).2 =
            (specStep none (r2 :: rest2)).2 := by
          simp [specStep, hemp]
        rw [hstep]
        exact ih none (r.is_empty) (by simpa using hgood2) hlast (by simp)
    · rw [Bool.not_eq_true] at hemp
      cases hkr : r.key with
      | some kk =>
        have hgood2 : goodRows rest true = true := by
          simp [goodRows, hemp, hkr] at hgood
          exact hgood
        cases rest with
        | nil => simp [specStep, hemp, hkr]
        | cons r2 rest2 =>
          have hstep : (specStep pnd (r :: r2 :: rest2)).2 =
              (specStep (some (kk, r.item.toList)) (r2 :: rest2)).2 := by
            simp [specStep, hemp, hkr]
          rw [hstep]
          exact ih (some (kk, r.item.toList)) (r.is_empty) (by simpa using hgood2)
            hlast (by simp)
      | none =>
        have hsome := item_isSome_of_not_empty hemp hkr
        have hps : pnd.isSome = true := by
          simp [goodRows, hemp, hkr] at hgood
          rcases hgood with ⟨h7 | h7, _⟩
          · rw [h7] at hsome
            cases hsome
          · exact h7
        obtain ⟨p2, hp2⟩ := Option.isSome_iff_exists.mp hps
        have hgood2 : goodRows rest true = true := by
          simp [goodRows, hemp, hkr, hps] at hgood
          exact hgood
        subst hp2
        cases rest with
        | nil => simp [specStep, hemp, hkr]
        | cons r2 rest2 =>
          have hstep : (specStep (some p2) (r :: r2 :: rest2)).2 =
              (specStep (some (p2.1, p2.2 ++ r.item.toList)) (r2 :: rest2)).2 := by
            simp [specStep, hemp, hkr]
          rw [hstep]
          exact ih (some (p2.1, p2.2 ++ r.item.toList)) (r.is_empty)
            (by simpa using hgood2) hlast (by simp)

/-- C2 (amended): for every non-empty table whose rows all parsed, in
which no item cell occurs while no receipt is open (`goodRows`), and in
which every predicted receipt has a valid timestamp and at least one
item, the assembler succeeds and returns exactly one receipt per
key-carrying row, whose item list is exactly the item cells from its key
row up to (but excluding) the next key row or empty row
(`claimedReceipts`).  The extra hypotheses are forced by the code: items
pushed while no key is pending leak into the next receipt, and an
item-less or invalid candidate can crash message formatting. -/
theorem runTable_one_receipt_per_key_row (y m : Int) (rows : List TableRow)
    (hne : rows ≠ [])
    (hgood : goodRows rows false = true)
    (hval : ∀ p ∈ claimedReceipts rows,
        validDT y m p.1.day p.1.hour p.1.minute = true ∧ p.2 ≠ []) :
    ∃ ds, runTable y m rows =
      some ((claimedReceipts rows).map (fun p => mkReceipt y m p.1 p.2), ds) ∧
      (claimedReceipts rows).length = rows.countP (fun r2 => r2.key.isSome) := by
  have hcl : claimedReceipts rows = specList none rows := rfl
  have hlen : (claimedReceipts rows).length = rows.countP (fun r2 => r2.key.isSome) := by
    rw [hcl, specList_length]
    simp
  obtain ⟨st', h1, h2, h3, h4, h5, ds0, h6⟩ := foldl_push_spec y m rows initAsm
    (fun _ => rfl) (by simpa [initAsm] using hgood)
    (by intro p hp
        exact hval p (by rw [hcl]; simpa [initAsm, pendingOf] using hp))
  have hpnd0 : pendingOf initAsm = none := rfl
  rw [hpnd0] at h2 h3
  unfold runTable
  rw [h1]
  dsimp only
  unfold asmResult
  cases hfin : (specStep none rows).2 with
  | some p =>
    rw [hfin] at h3
    obtain ⟨hks, hits⟩ := pendingOf_eq_some h3
    have hpv := hval p (by
      rw [hcl]
      unfold specList
      rw [hfin]
      exact List.mem_append_right _ (by simp))
    rw [pushReceipt_flush y m st' p.1 hks hpv.1 (by rw [hits]; exact hpv.2)]
    dsimp only
    have hrec : st'.receipts ++ [mkReceipt y m p.1 st'.tableItems] =
        (claimedReceipts rows).map (fun q => mkReceipt y m q.1 q.2) := by
      rw [h2, hits, hcl]
      unfold specList
      rw [hfin]
      simp [initAsm, List.map_append]
    cases hle : st'.isLastEmpty with
    | true =>
      rw [if_pos rfl]
      exact ⟨_, by rw [hrec], hlen⟩
    | false =>
      rw [if_neg (by simp)]
      rw [List.getLast?_concat]
      dsimp only
      have hie : (mkReceipt y m p.1 st'.tableItems).items.isEmpty = false := by
        have : (mkReceipt y m p.1 st'.tableItems).items = p.2 := by
          rw [hits]
          rfl
        rw [this]
        cases hp2 : p.2 with
        | nil => exact absurd hp2 hpv.2
        | cons a tl => rfl
      rw [hie]
      simp only [Bool.false_eq_true, if_false]
      exact ⟨_, by rw [hrec], hlen⟩
  | none =>
    rw [hfin] at h3
    have hkn := pendingOf_eq_none h3
    rw [pushReceipt_nokey hkn]
    dsimp only
    cases hle : st'.isLastEmpty with
    | true =>
      rw [if_pos rfl]
      have hrec : st'.receipts =
          (claimedReceipts rows).map (fun q => mkReceipt y m q.1 q.2) := by
        rw [h2, hcl]
        unfold specList
        rw [hfin]
        simp [initAsm]
      exact ⟨_, by rw [hrec], hlen⟩
    | false =>
      exfalso
      have hfoldl : List.foldl (fun _ r2 => r2.is_empty) initAsm.isLastEmpty rows = false := by
        rw [← h4]
        exact hle
      have hs := specStep_fin_isSome rows none initAsm.isLastEmpty
        (by simpa using hgood) hfoldl hne
      rw [hfin] at hs
      cases hs

/-- Witness for `runTable_one_receipt_per_key_row`: the specification's
own example table (`|15|09:30|Example Store|Widget|500|`, a Gadget
continuation row, and surrounding empty rows). -/
theorem runTable_one_receipt_per_key_row_witness :
    ∃ ds, runTable 2020 1
        [⟨none, none, 4⟩,
         ⟨some ⟨15, 9, 30, "Example Store", 5⟩, some ⟨"Widget", 500, 5⟩, 5⟩,
         ⟨none, some ⟨"Gadget", 300, 6⟩, 6⟩,
         ⟨none, none, 7⟩] =
      some ((claimedReceipts
          [⟨none, none, 4⟩,
           ⟨some ⟨15, 9, 30, "Example Store", 5⟩, some ⟨"Widget", 500, 5⟩, 5⟩,
           ⟨none, some ⟨"Gadget", 300, 6⟩, 6⟩,
           ⟨none, none, 7⟩]).map (fun p => mkReceipt 2020 1 p.1 p.2), ds) ∧
      (claimedReceipts
          [⟨none, none, 4⟩,
           ⟨some ⟨15, 9, 30, "Example Store", 5⟩, some ⟨"Widget", 500, 5⟩, 5⟩,
           ⟨none, some ⟨"Gadget", 300, 6⟩, 6⟩,
           ⟨none, none, 7⟩]).length =
        List.countP (fun r2 => r2.key.isSome)
          ([⟨none, none, 4⟩,
            ⟨some ⟨15, 9, 30, "Example Store", 5⟩, some ⟨"Widget", 500, 5⟩, 5⟩,
            ⟨none, some ⟨"Gadget", 300, 6⟩, 6⟩,
            ⟨none, none, 7⟩] : List TableRow) :=
  runTable_one_receipt_per_key_row 2020 1
    [⟨none, none, 4⟩,
     ⟨some ⟨15, 9, 30, "Example Store", 5⟩, some ⟨"Widget", 500, 5⟩, 5⟩,
     ⟨none, some ⟨"Gadget", 300, 6⟩, 6⟩,
     ⟨none, none, 7⟩]
    (by decide) (by decide) (by decide)

end Accountancy

namespace Accountancy

/-! ### C8: round-trip of `to_table_rows` through the line classifier -/

/-- The character of a decimal digit is a digit character. -/
theorem digit_char_isDigit {d : Nat} (h : d < 10) : (Char.ofNat (48 + d)).isDigit = true := by
  interval_cases d <;> decide

/-- Reading back the character of a decimal digit gives the digit. -/
theorem digit_char_val {d : Nat} (h : d < 10) : digitVal (Char.ofNat (48 + d)) = d := by
  interval_cases d <;> decide

/-- A digit character is not the column separator. -/
theorem isDigit_ne_pipe {c : Char} (h : c.isDigit = true) : c ≠ '|' := by
  intro he
  subst he
  exact absurd h (by decide)

/-- A digit character is not the minus sign. -/
theorem isDigit_ne_minus {c : Char} (h : c.isDigit = true) : c ≠ '-' := by
  intro he
  subst he
  exact absurd h (by decide)

/-- `takeWhile`/`dropWhile` split exactly at the first failing element. -/
theorem span_exact {α} {p : α → Bool} {xs t : List α} {y : α}
    (hall : ∀ a ∈ xs, p a = true) (hy : p y = false) :
    (xs ++ y :: t).takeWhile p = xs ∧ (xs ++ y :: t).dropWhile p = y :: t := by
  constructor
  · rw [List.takeWhile_append_of_pos hall, List.takeWhile_cons, hy]
    simp
  · rw [List.dropWhile_append_of_pos hall, List.dropWhile_cons, hy]
    simp

/-- Any sufficient fuel yields the exact digits, prepended to the accumulator. -/
theorem natToCharsAux_acc : ∀ (n fuel : Nat) (acc : List Char), n < fuel →
    natToCharsAux fuel n acc = natToChars n ++ acc := by
  intro n
  induction n using Nat.strong_induction_on with
  | _ n ih =>
    intro fuel acc hf
    cases fuel with
    | zero => omega
    | succ g =>
      by_cases hn : n < 10
      · show natToCharsAux (g + 1) n acc = natToCharsAux (n + 1) n [] ++ acc
        unfold natToCharsAux
        simp [hn]
      · show natToCharsAux (g + 1) n acc = natToCharsAux (n + 1) n [] ++ acc
        unfold natToCharsAux
        simp only [hn, if_false]
        have hlt : n / 10 < n := by omega
        rw [ih (n / 10) hlt g (Char.ofNat (48 + n % 10) :: acc) (by omega)]
        rw [ih (n / 10) hlt n (Char.ofNat (48 + n % 10) :: []) (by omega)]
        simp

/-- Rendering of a one-digit number. -/
theorem natToChars_lt10 {n : Nat} (h : n < 10) : natToChars n = [Char.ofNat (48 + n)] := by
  unfold natToChars natToCharsAux
  simp [h]

/-- Rendering of a multi-digit number: leading digits then last digit. -/
theorem natToChars_split {n : Nat} (h : 10 ≤ n) :
    natToChars n = natToChars (n / 10) ++ [Char.ofNat (48 + n % 10)] := by
  show natToCharsAux (n + 1) n [] = _
  unfold natToCharsAux
  simp only [show ¬ n < 10 from by omega, if_false]
  exact natToCharsAux_acc (n / 10) n [Char.ofNat (48 + n % 10)] (by omega)

/-- Appending one digit multiplies the accumulated value by ten and adds it. -/
theorem digitsToNat_append (xs : List Char) (d : Char) :
    digitsToNat (xs ++ [d]) = 10 * digitsToNat xs + digitVal d := by
  simp [digitsToNat, List.foldl_append]

/-- `natToChars` produces a non-empty all-digit string whose value is `n`. -/
theorem natToChars_spec : ∀ n : Nat, natToChars n ≠ [] ∧
    (∀ c ∈ natToChars n, c.isDigit = true) ∧ digitsToNat (natToChars n) = n := by
  intro n
  induction n using Nat.strong_induction_on with
  | _ n ih =>
    by_cases hn : n < 10
    · rw [natToChars_lt10 hn]
      refine ⟨by simp, ?_, ?_⟩
      · intro c hc
        rw [List.mem_singleton] at hc
        subst hc
        exact digit_char_isDigit hn
      · simp [digitsToNat, digitVal]
        have := digit_char_val hn
        simp [digitVal] at this
        omega
    · rw [natToChars_split (by omega)]
      obtain ⟨h1, h2, h3⟩ := ih (n / 10) (by omega)
      refine ⟨by simp [h1], ?_, ?_⟩
      · intro c hc
        rw [List.mem_append, List.mem_singleton] at hc
        rcases hc with hc | hc
        · exact h2 c hc
        · subst hc
          exact digit_char_isDigit (by omega)
      · rw [digitsToNat_append, h3, digit_char_val (by omega)]
        omega

/-- `pad02` of `0 ≤ i ≤ 99` is exactly two digit characters with value `i`
(Python `f'{i:02}'`). -/
theorem pad02_spec {i : Int} (h0 : 0 ≤ i) (h99 : i ≤ 99) :
    ∃ c1 c2, pad02 i = [c1, c2] ∧ c1.isDigit = true ∧ c2.isDigit = true ∧
      ((10 * digitVal c1 + digitVal c2 : Nat) : Int) = i := by
  have hpos : intToChars i = natToChars i.toNat := by
    unfold intToChars
    rw [if_neg (by omega)]
  by_cases hl : i.toNat < 10
  · refine ⟨'0', Char.ofNat (48 + i.toNat), ?_, by decide, digit_char_isDigit hl, ?_⟩
    · unfold pad02
      rw [hpos, natToChars_lt10 hl]
      rfl
    · rw [digit_char_val hl, show digitVal '0' = 0 from by decide]
      omega
  · have h10 : 10 ≤ i.toNat := by omega
    have hsplit : natToChars i.toNat =
        [Char.ofNat (48 + i.toNat / 10), Char.ofNat (48 + i.toNat % 10)] := by
      rw [natToChars_split h10, natToChars_lt10 (show i.toNat / 10 < 10 from by omega)]
      rfl
    refine ⟨Char.ofNat (48 + i.toNat / 10), Char.ofNat (48 + i.toNat % 10), ?_,
      digit_char_isDigit (by omega), digit_char_isDigit (by omega), ?_⟩
    · unfold pad02
      rw [hpos, hsplit]
      rfl
    · rw [digit_char_val (show i.toNat / 10 < 10 from by omega),
          digit_char_val (show i.toNat % 10 < 10 from by omega)]
      omega

/-- The price-digit parser consumes a rendered digit block up to the next
separator and returns its (possibly negated) value. -/
theorem parsePriceDigits_render (ds : List Char) (neg : Bool) (t : List Char)
    (hne : ds ≠ []) (hdig : ∀ c ∈ ds, c.isDigit = true) :
    parsePriceDigits (ds ++ '|' :: t) neg =
      some ((if neg then -(digitsToNat ds : Int) else (digitsToNat ds : Int)), t) := by
  unfold parsePriceDigits
  obtain ⟨htake, hdrop⟩ := span_exact hdig (show Char.isDigit '|' = false from by decide)
  dsimp only
  rw [htake, hdrop]
  rw [if_neg (by intro hcon; exact hne (by simpa using hcon))]
  rfl

/-- The price parser reads back exactly the integer that `f'{i}'` rendered. -/
theorem parsePriceTail_int (i : Int) (t : List Char) :
    parsePriceTail (intToChars i ++ '|' :: t) = some (i, t) := by
  unfold intToChars
  by_cases hneg : i < 0
  · rw [if_pos hneg]
    obtain ⟨h1, h2, h3⟩ := natToChars_spec i.natAbs
    rw [show parsePriceTail (('-' :: natToChars i.natAbs) ++ '|' :: t) =
          parsePriceDigits (natToChars i.natAbs ++ '|' :: t) true from rfl]
    rw [parsePriceDigits_render _ true t h1 h2, h3]
    rw [if_pos rfl, show -(i.natAbs : Int) = i from by omega]
  · rw [if_neg hneg]
    obtain ⟨h1, h2, h3⟩ := natToChars_spec i.toNat
    cases hnc : natToChars i.toNat with
    | nil => exact absurd hnc h1
    | cons c cs =>
      rw [show parsePriceTail ((c :: cs) ++ '|' :: t) =
            (if c = '-' then parsePriceDigits (cs ++ '|' :: t) true
             else parsePriceDigits ((c :: cs) ++ '|' :: t) false) from rfl]
      rw [if_neg (isDigit_ne_minus (h2 c (by rw [hnc]; simp)))]
      rw [parsePriceDigits_render (c :: cs) false t (by simp)
            (fun a ha => h2 a (by rw [hnc]; exact ha))]
      rw [if_neg (by decide), ← hnc, h3, show ((i.toNat : Nat) : Int) = i from by omega]

/-- The item group parser reads back a rendered `|name|price|` cell when the
name is non-empty and separator-free. -/
theorem parseItemChars_render (name : String) (price : Int) (t : List Char)
    (hnm : name.toList ≠ []) (hnmp : ∀ c ∈ name.toList, c ≠ '|') :
    parseItemChars ('|' :: (name.toList ++ '|' :: (intToChars price ++ '|' :: t))) =
      some (some (name, price), t) := by
  cases hn : name.toList with
  | nil => exact absurd hn hnm
  | cons c cs =>
    have hall : ∀ a ∈ c :: cs, (a != '|') = true := by
      intro a ha
      rw [bne_iff_ne]
      exact hnmp a (by rw [hn]; exact ha)
    obtain ⟨htake, hdrop⟩ := span_exact hall
      (show ('|' != '|') = false from by decide)
    have htake2 : List.takeWhile (fun x => x != '|')
        (c :: (cs ++ '|' :: (intToChars price ++ '|' :: t))) = c :: cs := by
      rw [← List.cons_append]
      exact htake
    have hdrop2 : List.dropWhile (fun x => x != '|')
        (c :: (cs ++ '|' :: (intToChars price ++ '|' :: t))) =
        '|' :: (intToChars price ++ '|' :: t) := by
      rw [← List.cons_append]
      exact hdrop
    have hname : String.mk (c :: cs) = name := by
      rw [← hn]
      cases name
      rfl
    rw [show parseItemChars ('|' :: ((c :: cs) ++ '|' :: (intToChars price ++ '|' :: t))) =
          (if c = '|' then
            (match cs ++ '|' :: (intToChars price ++ '|' :: t) with
              | '|' :: rest2 => some ((none : Option (String × Int)), rest2)
              | _ => none)
          else
            match List.dropWhile (fun x => x != '|')
                (c :: (cs ++ '|' :: (intToChars price ++ '|' :: t))) with
            | '|' :: r2 => (parsePriceTail r2).map (fun pr =>
                (some (String.mk (List.takeWhile (fun x => x != '|')
                  (c :: (cs ++ '|' :: (intToChars price ++ '|' :: t)))), pr.1), pr.2))
            | _ => none) from rfl]
    rw [if_neg (show ¬ c = '|' from hnmp c (by rw [hn]; simp))]
    rw [htake2, hdrop2]
    show (parsePriceTail (intToChars price ++ '|' :: t)).map
        (fun pr => (some (String.mk (c :: cs), pr.1), pr.2)) = some (some (name, price), t)
    rw [parsePriceTail_int price t, Option.map_some']
    rw [hname]

/-- The key group parser reads back a rendered `|day|HH:MM|store|` prefix when
the day is non-negative, hour and minute fit in two digits, and the store
name is non-empty and separator-free. -/
theorem parseKeyChars_render (day hour minute : Int) (store : String) (T : List Char)
    (hday : 0 ≤ day) (hh0 : 0 ≤ hour) (hh99 : hour ≤ 99)
    (hm0 : 0 ≤ minute) (hm99 : minute ≤ 99)
    (hs : store.toList ≠ []) (hsp : ∀ c ∈ store.toList, c ≠ '|') :
    parseKeyChars ('|' :: (intToChars day ++ '|' :: (pad02 hour ++ ':' :: (pad02 minute ++
      '|' :: (store.toList ++ '|' :: T))))) =
      some (some (day, hour, minute, store), '|' :: T) := by
  have hpos : intToChars day = natToChars day.toNat := by
    unfold intToChars
    rw [if_neg (by omega)]
  obtain ⟨hd1, hd2, hd3⟩ := natToChars_spec day.toNat
  obtain ⟨a1, a2, hha, ha1, ha2, hav⟩ := pad02_spec hh0 hh99
  obtain ⟨b1, b2, hmb, hb1, hb2, hbv⟩ := pad02_spec hm0 hm99
  rw [hpos, hha, hmb]
  cases hd : natToChars day.toNat with
  | nil => exact absurd hd hd1
  | cons d ds2 =>
    have hdig : ∀ c ∈ d :: ds2, c.isDigit = true := by
      intro c hc
      exact hd2 c (by rw [hd]; exact hc)
    simp only [List.cons_append, List.nil_append]
    rw [show parseKeyChars ('|' :: d :: (ds2 ++ '|' :: a1 :: a2 :: ':' :: b1 :: b2 :: '|' ::
          (store.toList ++ '|' :: T))) =
        (if d = '|' then
          (match ds2 ++ '|' :: a1 :: a2 :: ':' :: b1 :: b2 :: '|' ::
              (store.toList ++ '|' :: T) with
            | '|' :: rest2 => some ((none : Option (Int × Int × Int × String)), rest2)
            | _ => none)
        else if d.isDigit then
          (match List.dropWhile Char.isDigit (d :: (ds2 ++ '|' :: a1 :: a2 :: ':' :: b1 ::
              b2 :: '|' :: (store.toList ++ '|' :: T))) with
            | '|' :: h1 :: h2 :: ':' :: m1 :: m2 :: '|' :: r2 =>
              if h1.isDigit && h2.isDigit && m1.isDigit && m2.isDigit then
                if (List.takeWhile (fun x => x != '|') r2).isEmpty then none
                else some (some ((digitsToNat (List.takeWhile Char.isDigit (d :: (ds2 ++
                      '|' :: a1 :: a2 :: ':' :: b1 :: b2 :: '|' ::
                      (store.toList ++ '|' :: T)))) : Int),
                    ((10 * digitVal h1 + digitVal h2 : Nat) : Int),
                    ((10 * digitVal m1 + digitVal m2 : Nat) : Int),
                    String.mk (List.takeWhile (fun x => x != '|') r2)),
                  List.dropWhile (fun x => x != '|') r2)
              else none
            | _ => none)
        else none) from rfl]
    rw [if_neg (isDigit_ne_pipe (hdig d (by simp)))]
    rw [if_pos (hdig d (by simp))]
    have htakeD : List.takeWhile Char.isDigit (d :: (ds2 ++ '|' :: a1 :: a2 :: ':' :: b1 ::
        b2 :: '|' :: (store.toList ++ '|' :: T))) = d :: ds2 := by
      rw [← List.cons_append]
      exact (span_exact hdig (show Char.isDigit '|' = false from by decide)).1
    have hdropD : List.dropWhile Char.isDigit (d :: (ds2 ++ '|' :: a1 :: a2 :: ':' :: b1 ::
        b2 :: '|' :: (store.toList ++ '|' :: T))) =
        '|' :: a1 :: a2 :: ':' :: b1 :: b2 :: '|' :: (store.toList ++ '|' :: T) := by
      rw [← List.cons_append]
      exact (span_exact hdig (show Char.isDigit '|' = false from by decide)).2
    rw [htakeD, hdropD]
    rw [show (match ('|' :: a1 :: a2 :: ':' :: b1 :: b2 :: '|' ::
          (store.toList ++ '|' :: T) : List Char) with
        | '|' :: h1 :: h2 :: ':' :: m1 :: m2 :: '|' :: r2 =>
          if h1.isDigit && h2.isDigit && m1.isDigit && m2.isDigit then
            if (List.takeWhile (fun x => x != '|') r2).isEmpty then none
            else some (some ((digitsToNat (d :: ds2) : Int),
                ((10 * digitVal h1 + digitVal h2 : Nat) : Int),
                ((10 * digitVal m1 + digitVal m2 : Nat) : Int),
                String.mk (List.takeWhile (fun x => x != '|') r2)),
              List.dropWhile (fun x => x != '|') r2)
          else none
        | _ => none) =
        (if a1.isDigit && a2.isDigit && b1.isDigit && b2.isDigit then
          if (List.takeWhile (fun x => x != '|') (store.toList ++ '|' :: T)).isEmpty then none
          else some (some ((digitsToNat (d :: ds2) : Int),
              ((10 * digitVal a1 + digitVal a2 : Nat) : Int),
              ((10 * digitVal b1 + digitVal b2 : Nat) : Int),
              String.mk (List.takeWhile (fun x => x != '|') (store.toList ++ '|' :: T))),
            List.dropWhile (fun x => x != '|') (store.toList ++ '|' :: T))
        else none) from rfl]
    rw [if_pos (show (a1.isDigit && a2.isDigit && b1.isDigit && b2.isDigit) = true from by
      rw [ha1, ha2, hb1, hb2]; rfl)]
    have hallS : ∀ a ∈ store.toList, (a != '|') = true := by
      intro a ha
      rw [bne_iff_ne]
      exact hsp a ha
    obtain ⟨htakeS, hdropS⟩ := span_exact hallS (show ('|' != '|') = false from by decide)
    rw [htakeS, hdropS]
    rw [if_neg (by intro hcon; exact hs (by simpa using hcon))]
    rw [← hd, hd3, hav, hbv]
    rw [show ((day.toNat : Nat) : Int) = day from by omega]
    rw [show String.mk store.toList = store from by cases store; rfl]

/-- A rendered key-carrying row classifies as that key plus its first item. -/
theorem parseLineChars_key_row (r : Receipt) (it : ReceiptItem)
    (hday : 0 ≤ r.day) (hh0 : 0 ≤ r.hour) (hh99 : r.hour ≤ 99)
    (hm0 : 0 ≤ r.minute) (hm99 : r.minute ≤ 99)
    (hs : r.store.toList ≠ []) (hsp : ∀ c ∈ r.store.toList, c ≠ '|')
    (hit1 : it.name.toList ≠ []) (hit2 : ∀ c ∈ it.name.toList, c ≠ '|') :
    parseLineChars (keyRowChars r it) =
      some (some (r.day, r.hour, r.minute, r.store), some (it.name, it.price), []) := by
  unfold keyRowChars parseLineChars
  rw [parseKeyChars_render r.day r.hour r.minute r.store
        (it.name.toList ++ '|' :: (intToChars it.price ++ ['|']))
        hday hh0 hh99 hm0 hm99 hs hsp]
  show (match parseItemChars ('|' :: (it.name.toList ++ '|' :: (intToChars it.price ++
        ['|']))) with
      | none => none
      | some (itm, r2) =>
        some ((some (r.day, r.hour, r.minute, r.store) :
          Option (Int × Int × Int × String)), itm, r2)) = _
  rw [parseItemChars_render it.name it.price [] hit1 hit2]

/-- A rendered continuation row classifies as a key-less item row. -/
theorem parseLineChars_item_row (x : ReceiptItem)
    (hx : x.name.toList ≠ []) (hxp : ∀ c ∈ x.name.toList, c ≠ '|') :
    parseLineChars (itemRowChars x) = some (none, some (x.name, x.price), []) := by
  rw [show parseLineChars (itemRowChars x) =
        (match parseItemChars ('|' :: (x.name.toList ++ '|' ::
            (intToChars x.price ++ ['|']))) with
          | none => none
          | some (itm, r2) =>
            some ((none : Option (Int × Int × Int × String)), itm, r2)) from rfl]
  rw [parseItemChars_render x.name x.price [] hx hxp]

/-- `_TableRow.parse_line` on a line built from characters, in terms of the
character-level scanner. -/
theorem parse_line_of_chars (s : List Char) (n : Nat)
    (k : Option (Int × Int × Int × String)) (itm : Option (String × Int)) (rest : List Char)
    (h : parseLineChars s = some (k, itm, rest)) :
    TableRow.parse_line ⟨String.mk s, n⟩ =
      some { key := k.map (fun q => { day := q.1, hour := q.2.1, minute := q.2.2.1,
                                      store := q.2.2.2, line_number := n }),
             item := itm.map (fun q => { name := q.1, price := q.2, line_number := n }),
             line_number := n } := by
  unfold TableRow.parse_line
  rw [show ((⟨String.mk s, n⟩ : MonthlyReportLine).text.toList) = s from rfl]
  rw [h]

/-- C8 (amended): round-trip. For every receipt with a non-empty item list, a
non-negative day, hour and minute in `0..99`, and a store name and item names
that are non-empty and contain no `|`, feeding each line of `to_table_rows`
back through the line classifier succeeds, reproduces the key fields
(day, hour, minute, store) on the first row, and reproduces the items
(name, price) in order. (The original claim omitted the day/hour/minute
range conditions; `to_table_rows_hour100_cex` shows `hour = 100` renders a
row the classifier rejects.) -/
theorem to_table_rows_round_trip (r : Receipt) (it : ReceiptItem)
    (rest : List ReceiptItem) (n : Nat)
    (hitems : r.items = it :: rest)
    (hday : 0 ≤ r.day) (hh0 : 0 ≤ r.hour) (hh99 : r.hour ≤ 99)
    (hm0 : 0 ≤ r.minute) (hm99 : r.minute ≤ 99)
    (hs : r.store.toList ≠ []) (hsp : ∀ c ∈ r.store.toList, c ≠ '|')
    (hnames : ∀ x ∈ r.items, x.name.toList ≠ [] ∧ ∀ c ∈ x.name.toList, c ≠ '|') :
    r.to_table_rows.map (fun s => TableRow.parse_line ⟨s, n⟩) =
      some { key := some { day := r.day, hour := r.hour, minute := r.minute,
                           store := r.store, line_number := n },
             item := some { name := it.name, price := it.price, line_number := n },
             line_number := n } ::
      rest.map (fun x =>
        some ({ key := none,
                item := some { name := x.name, price := x.price, line_number := n },
                line_number := n } : TableRow)) := by
  have hrows : r.to_table_rows =
      String.mk (keyRowChars r it) :: rest.map (fun x => String.mk (itemRowChars x)) := by
    unfold Receipt.to_table_rows
    rw [hitems]
  rw [hrows, List.map_cons, List.map_map]
  have hfirst := hnames it (by rw [hitems]; simp)
  have h1 : TableRow.parse_line ⟨String.mk (keyRowChars r it), n⟩ =
      some { key := some { day := r.day, hour := r.hour, minute := r.minute,
                           store := r.store, line_number := n },
             item := some { name := it.name, price := it.price, line_number := n },
             line_number := n } := by
    rw [parse_line_of_chars (keyRowChars r it) n
          (some (r.day, r.hour, r.minute, r.store)) (some (it.name, it.price)) []
          (parseLineChars_key_row r it hday hh0 hh99 hm0 hm99 hs hsp hfirst.1 hfirst.2)]
    rfl
  have h2 : rest.map ((fun s => TableRow.parse_line ⟨s, n⟩) ∘
        fun x => String.mk (itemRowChars x)) =
      rest.map (fun x =>
        some ({ key := none,
                item := some { name := x.name, price := x.price, line_number := n },
                line_number := n } : TableRow)) := by
    refine List.map_congr_left ?_
    intro x hx
    have hxn := hnames x (by rw [hitems]; exact List.mem_cons_of_mem it hx)
    show TableRow.parse_line ⟨String.mk (itemRowChars x), n⟩ = _
    rw [parse_line_of_chars (itemRowChars x) n none (some (x.name, x.price)) []
          (parseLineChars_item_row x hxn.1 hxn.2)]
    rfl
  rw [h1, h2]

/-- Closed witness for the round-trip theorem on a two-item receipt with a
negative price. -/
theorem to_table_rows_round_trip_witness :
    (⟨2020, 1, 15, 9, 30, "S", [⟨"W", 500, 7⟩, ⟨"X", -3, 8⟩], 7⟩ :
        Receipt).to_table_rows.map (fun s => TableRow.parse_line ⟨s, 7⟩) =
      some { key := some { day := 15, hour := 9, minute := 30, store := "S",
                           line_number := 7 },
             item := some { name := "W", price := 500, line_number := 7 },
             line_number := 7 } ::
      [some ({ key := none,
               item := some { name := "X", price := -3, line_number := 7 },
               line_number := 7 } : TableRow)] :=
  to_table_rows_round_trip ⟨2020, 1, 15, 9, 30, "S", [⟨"W", 500, 7⟩, ⟨"X", -3, 8⟩], 7⟩
    ⟨"W", 500, 7⟩ [⟨"X", -3, 8⟩] 7 rfl (by decide) (by decide) (by decide) (by decide)
    (by decide) (by decide) (by decide) (by decide)

end Accountancy
